import Mathlib

/-!
# Verification of the sapark Sweep-and-Prune collision core

This file gives a shallow embedding of the collision core of `src/main.go`
(repository `setanarut/sapark`) and proves or refutes a set of claims about
its behaviour.

Modelling conventions:
* `float64` coordinates are modelled by exact rationals `ℚ` (the algorithm
  uses only comparisons, `+`, `-`, `min`, `max`, `abs` and division by two).
* entities (`ecs.Entity`) are modelled by `ℕ`; the three components
  (`Rect`, `Velocity`, `Collision`) of an entity are gathered in one record,
  and the ECS store (`generic.Map3.Get`, mutation through pointers) becomes
  a function `Entity → BodyRec` updated pointwise.
* `sort.Slice` with the comparator `intervals[i].Xaxis < intervals[j].Xaxis`
  guarantees only that the output is some permutation of the input that is
  non-decreasing in `Xaxis`; theorems about a tick therefore quantify over
  every such permutation (a hypothesis `eps.Perm … ∧ eps.Pairwise (le on
  xaxis)`), which is exactly the contract of the sorter.
* the fields `tested` and `confirmed` of `SweepState` are observation-only
  instrumentation recording which pairs were submitted to the narrow-phase
  Y-test, resp. confirmed by it; they influence nothing (proved by the
  `testedRun`/`activeRun` bridge lemmas below).
-/

namespace Sapark

/-- Screen width, `ScreenWidth` in src/main.go. -/
def screenW : ℚ := 900

/-- Screen height, `ScreenHeight` in src/main.go. -/
def screenH : ℚ := 800

/-- Constant `MaxPossibleObject` in src/main.go: the capacity of `g.activeList`. -/
def MaxPossibleObject : ℕ := 10000

/-- Entities of the arche ECS world, modelled as naturals. -/
abbrev Entity := ℕ

/-- The `Rect` component of src/main.go. -/
structure Rect where
  x : ℚ
  y : ℚ
  w : ℚ
  h : ℚ
deriving DecidableEq

/-- The `Velocity` component of src/main.go. -/
structure Velocity where
  x : ℚ
  y : ℚ
deriving DecidableEq

/-- One entity's `Rect`, `Velocity` and `Collision` components
(`Collision.IsColliding` is inlined as `isColliding`). -/
structure BodyRec where
  rect : Rect
  vel : Velocity
  isColliding : Bool
deriving DecidableEq

/-- The `Interval` structure of src/main.go. -/
structure Interval where
  xaxis : ℚ
  isLeftEdge : Bool
  entity : Entity
deriving DecidableEq

/-- The ECS store: entity to component record, `g.mapObject`. -/
abbrev Store := Entity → BodyRec

/-- Pointwise store update (writing through the component pointers). -/
def setStore (σ : Store) (e : Entity) (b : BodyRec) : Store :=
  fun e' => if e' = e then b else σ e'

/-- Definition of `overlapX := math.Min(r1.X+r1.W, r2.X+r2.W) - math.Max(r1.X, r2.X)`
(src/main.go line 177). -/
def overlapX (r1 r2 : Rect) : ℚ :=
  min (r1.x + r1.w) (r2.x + r2.w) - max r1.x r2.x

/-- Definition of `overlapY := math.Min(r1.Y+r1.H, r2.Y+r2.H) - math.Max(r1.Y, r2.Y)`
(src/main.go line 178). -/
def overlapY (r1 r2 : Rect) : ℚ :=
  min (r1.y + r1.h) (r2.y + r2.h) - max r1.y r2.y

/-- The narrow-phase AABB test of src/main.go line 167:
`r1.Y < r2.Y+r2.H && r1.Y+r1.H > r2.Y`. -/
def yOverlaps (r1 r2 : Rect) : Prop :=
  r1.y < r2.y + r2.h ∧ r1.y + r1.h > r2.y

instance (r1 r2 : Rect) : Decidable (yOverlaps r1 r2) := by
  unfold yOverlaps; infer_instance

/-- Result of one narrow-phase test plus response; `hit` records whether the
Y-test succeeded (observation only). -/
structure ResolveRes where
  r1 : Rect
  v1 : Velocity
  c1 : Bool
  r2 : Rect
  v2 : Velocity
  c2 : Bool
  hit : Bool

/-- The body of the inner loop of `Game.Update` (src/main.go lines 166-202):
Y-overlap test, collision flags, overlap computation, separation on the axis
of smaller overlap (`overlapX < overlapY` selects X), positional split of the
overlap in half, and velocity exchange on the chosen axis. -/
def resolvePair (r1 : Rect) (v1 : Velocity) (c1 : Bool)
    (r2 : Rect) (v2 : Velocity) (c2 : Bool) : ResolveRes :=
  if yOverlaps r1 r2 then
    if overlapX r1 r2 < overlapY r1 r2 then
      if r1.x < r2.x then
        { r1 := { r1 with x := r1.x - overlapX r1 r2 / 2 },
          v1 := { v1 with x := v2.x }, c1 := true,
          r2 := { r2 with x := r2.x + overlapX r1 r2 / 2 },
          v2 := { v2 with x := v1.x }, c2 := true, hit := true }
      else
        { r1 := { r1 with x := r1.x + overlapX r1 r2 / 2 },
          v1 := { v1 with x := v2.x }, c1 := true,
          r2 := { r2 with x := r2.x - overlapX r1 r2 / 2 },
          v2 := { v2 with x := v1.x }, c2 := true, hit := true }
    else
      if r1.y < r2.y then
        { r1 := { r1 with y := r1.y - overlapY r1 r2 / 2 },
          v1 := { v1 with y := v2.y }, c1 := true,
          r2 := { r2 with y := r2.y + overlapY r1 r2 / 2 },
          v2 := { v2 with y := v1.y }, c2 := true, hit := true }
      else
        { r1 := { r1 with y := r1.y + overlapY r1 r2 / 2 },
          v1 := { v1 with y := v2.y }, c1 := true,
          r2 := { r2 with y := r2.y - overlapY r1 r2 / 2 },
          v2 := { v2 with y := v1.y }, c2 := true, hit := true }
  else
    { r1 := r1, v1 := v1, c1 := c1, r2 := r2, v2 := v2, c2 := c2, hit := false }

/-- Function `handleScreenBoundaryCollision` of src/main.go lines 227-245: pin the
rectangle inside `[0, screenWidth] × [0, screenHeight]` and reflect the
velocity on contact (two independent if/else-if chains, one per axis). -/
def handleScreenBoundaryCollision (rect : Rect) (vel : Velocity)
    (screenWidth screenHeight : ℚ) : Rect × Velocity :=
  let px : ℚ × ℚ :=
    if rect.x ≤ 0 then (0, |vel.x|)
    else if rect.x + rect.w ≥ screenWidth then (screenWidth - rect.w, -|vel.x|)
    else (rect.x, vel.x)
  let py : ℚ × ℚ :=
    if rect.y ≤ 0 then (0, |vel.y|)
    else if rect.y + rect.h ≥ screenHeight then (screenHeight - rect.h, -|vel.y|)
    else (rect.y, vel.y)
  ({ rect with x := px.1, y := py.1 }, { x := px.2, y := py.2 })

/-- The per-entity part of the first loop of `Game.Update`
(src/main.go lines 146-155): apply velocity, clamp to the screen, and reset
the collision flag. -/
def integrateBody (w h : ℚ) (b : BodyRec) : BodyRec :=
  let moved : Rect := { b.rect with x := b.rect.x + b.vel.x, y := b.rect.y + b.vel.y }
  let rv := handleScreenBoundaryCollision moved b.vel w h
  { rect := rv.1, vel := rv.2, isColliding := false }

/-- The first loop of `Game.Update` (src/main.go lines 145-160): integrate
every entity in query order and append its two SAP intervals
(`Interval{rect.X, true, e}` and `Interval{rect.X + rect.W, false, e}`). -/
def integratePhase (w h : ℚ) : List Entity → Store → Store × List Interval
  | [], σ => (σ, [])
  | e :: rest, σ =>
    let b := integrateBody w h (σ e)
    let res := integratePhase w h rest (setStore σ e b)
    (res.1, ⟨b.rect.x, true, e⟩ :: ⟨b.rect.x + b.rect.w, false, e⟩ :: res.2)

/-- The removal loop on a right edge (src/main.go lines 212-219): find the
first index holding the entity, overwrite it with the last live element and
shrink by one; if the entity is absent the loop finds nothing and nothing
happens — the inconsistency is silently ignored. -/
def swapRemove (l : List Entity) (e : Entity) : List Entity :=
  if e ∈ l then (l.set (l.indexOf e) (l.getLastD 0)).dropLast else l

/-- State of the sweep loop: the ECS store, the active list
(`g.activeList[0:g.activeLen]`), and two observation-only traces. -/
structure SweepState where
  store : Store
  active : List Entity
  tested : List (Entity × Entity)
  confirmed : List (Entity × Entity)

/-- The inner loop over the active list on a left edge (src/main.go lines
163-203): every active entity is submitted to the narrow-phase Y-test against
the entering entity `e1`, reading and writing the live store as the Go code
does through component pointers. `tested` records each submitted ordered pair
`(e1, e2)`; `confirmed` records those whose Y-test succeeded. -/
def narrowPhase (e1 : Entity) : List Entity → Store →
    List (Entity × Entity) → List (Entity × Entity) →
    Store × List (Entity × Entity) × List (Entity × Entity)
  | [], σ, t, c => (σ, t, c)
  | e2 :: rest, σ, t, c =>
    let b1 := σ e1
    let b2 := σ e2
    let res := resolvePair b1.rect b1.vel b1.isColliding b2.rect b2.vel b2.isColliding
    let σ' := setStore (setStore σ e1 ⟨res.r1, res.v1, res.c1⟩) e2 ⟨res.r2, res.v2, res.c2⟩
    narrowPhase e1 rest σ' (t ++ [(e1, e2)]) (c ++ if res.hit then [(e1, e2)] else [])

/-- One iteration of the sweep loop of `Game.Update` (src/main.go lines
161-221): on a left edge, run the narrow phase against the active list and
then append the entity if the capacity check `activeLen < len(activeList)`
passes; on a right edge, swap-remove the entity from the active list. -/
def sweepStep (cap : ℕ) (s : SweepState) (iv : Interval) : SweepState :=
  if iv.isLeftEdge then
    let res := narrowPhase iv.entity s.active s.store s.tested s.confirmed
    { store := res.1,
      active := if s.active.length < cap then s.active ++ [iv.entity] else s.active,
      tested := res.2.1, confirmed := res.2.2 }
  else
    { s with active := swapRemove s.active iv.entity }

/-- The sweep loop of `Game.Update` over the sorted interval list. -/
def sweep (cap : ℕ) (eps : List Interval) (s : SweepState) : SweepState :=
  eps.foldl (sweepStep cap) s

/-- The sweep starts each tick with an empty active list
(`g.activeLen = 0`). -/
def initState (σ : Store) : SweepState :=
  { store := σ, active := [], tested := [], confirmed := [] }

/-! ## C4: boundary containment -/

/-- Claim C4: immediately after the boundary clamp, every body whose sizes fit
the screen (`w ≤ width`, `h ≤ height`, as every spawned body's do) satisfies
`0 ≤ x`, `x + w ≤ width`, `0 ≤ y` and `y + h ≤ height`. -/
theorem C4_boundary_containment (rect : Rect) (vel : Velocity) (W H : ℚ)
    (hw : rect.w ≤ W) (hh : rect.h ≤ H) :
    0 ≤ (handleScreenBoundaryCollision rect vel W H).1.x ∧
    (handleScreenBoundaryCollision rect vel W H).1.x +
      (handleScreenBoundaryCollision rect vel W H).1.w ≤ W ∧
    0 ≤ (handleScreenBoundaryCollision rect vel W H).1.y ∧
    (handleScreenBoundaryCollision rect vel W H).1.y +
      (handleScreenBoundaryCollision rect vel W H).1.h ≤ H := by
  simp only [handleScreenBoundaryCollision]
  split_ifs <;> refine ⟨?_, ?_, ?_, ?_⟩ <;> simp <;> linarith

/-- Witness for C4 at a concrete clamped body. -/
theorem C4_boundary_containment_witness :
    ((10 : ℚ) ≤ 900 ∧ (10 : ℚ) ≤ 800) ∧
    (0 ≤ (handleScreenBoundaryCollision ⟨-5, 795, 10, 10⟩ ⟨-1, 1⟩ 900 800).1.x ∧
     (handleScreenBoundaryCollision ⟨-5, 795, 10, 10⟩ ⟨-1, 1⟩ 900 800).1.x +
       (handleScreenBoundaryCollision ⟨-5, 795, 10, 10⟩ ⟨-1, 1⟩ 900 800).1.w ≤ 900 ∧
     0 ≤ (handleScreenBoundaryCollision ⟨-5, 795, 10, 10⟩ ⟨-1, 1⟩ 900 800).1.y ∧
     (handleScreenBoundaryCollision ⟨-5, 795, 10, 10⟩ ⟨-1, 1⟩ 900 800).1.y +
       (handleScreenBoundaryCollision ⟨-5, 795, 10, 10⟩ ⟨-1, 1⟩ 900 800).1.h ≤ 800) :=
  ⟨⟨by norm_num, by norm_num⟩,
   C4_boundary_containment ⟨-5, 795, 10, 10⟩ ⟨-1, 1⟩ 900 800 (by norm_num) (by norm_num)⟩

/-! ## C2: separation-axis choice -/

/-- Claim C2 counterexample: with `r1 = (0,0,4,4)` and `r2 = (2,2,4,4)` the two
overlap magnitudes are exactly equal (`overlapX = overlapY = 2`), yet the
responder separates on the **Y** axis (X coordinates are untouched and Y
coordinates move), refuting the claimed tie-break "X wins on exact
equality". -/
theorem C2_counterexample :
    overlapX ⟨0, 0, 4, 4⟩ ⟨2, 2, 4, 4⟩ = overlapY ⟨0, 0, 4, 4⟩ ⟨2, 2, 4, 4⟩ ∧
    (resolvePair ⟨0, 0, 4, 4⟩ ⟨1, 2⟩ false ⟨2, 2, 4, 4⟩ ⟨3, 4⟩ false).r1.x = 0 ∧
    (resolvePair ⟨0, 0, 4, 4⟩ ⟨1, 2⟩ false ⟨2, 2, 4, 4⟩ ⟨3, 4⟩ false).r2.x = 2 ∧
    (resolvePair ⟨0, 0, 4, 4⟩ ⟨1, 2⟩ false ⟨2, 2, 4, 4⟩ ⟨3, 4⟩ false).r1.y = -1 ∧
    (resolvePair ⟨0, 0, 4, 4⟩ ⟨1, 2⟩ false ⟨2, 2, 4, 4⟩ ⟨3, 4⟩ false).r2.y = 3 := by
  norm_num [resolvePair, overlapX, overlapY, yOverlaps, min_def, max_def]

/-- Claim C2 (amended): the responder separates on the axis with the *strictly*
smaller overlap magnitude; on exact equality of the two overlaps the **Y**
axis is chosen (the code tests `overlapX < overlapY`). On the chosen axis the
two bodies are displaced by half the overlap each, directed by their
coordinate order; the orthogonal coordinates and velocity components are
untouched. -/
theorem C2_axis_choice (r1 : Rect) (v1 : Velocity) (c1 : Bool)
    (r2 : Rect) (v2 : Velocity) (c2 : Bool) (hy : yOverlaps r1 r2) :
    (overlapX r1 r2 < overlapY r1 r2 →
      (resolvePair r1 v1 c1 r2 v2 c2).r1.y = r1.y ∧
      (resolvePair r1 v1 c1 r2 v2 c2).r2.y = r2.y ∧
      (resolvePair r1 v1 c1 r2 v2 c2).v1.y = v1.y ∧
      (resolvePair r1 v1 c1 r2 v2 c2).v2.y = v2.y ∧
      ((r1.x < r2.x ∧
          (resolvePair r1 v1 c1 r2 v2 c2).r1.x = r1.x - overlapX r1 r2 / 2 ∧
          (resolvePair r1 v1 c1 r2 v2 c2).r2.x = r2.x + overlapX r1 r2 / 2) ∨
       (¬ r1.x < r2.x ∧
          (resolvePair r1 v1 c1 r2 v2 c2).r1.x = r1.x + overlapX r1 r2 / 2 ∧
          (resolvePair r1 v1 c1 r2 v2 c2).r2.x = r2.x - overlapX r1 r2 / 2))) ∧
    (¬ overlapX r1 r2 < overlapY r1 r2 →
      (resolvePair r1 v1 c1 r2 v2 c2).r1.x = r1.x ∧
      (resolvePair r1 v1 c1 r2 v2 c2).r2.x = r2.x ∧
      (resolvePair r1 v1 c1 r2 v2 c2).v1.x = v1.x ∧
      (resolvePair r1 v1 c1 r2 v2 c2).v2.x = v2.x ∧
      ((r1.y < r2.y ∧
          (resolvePair r1 v1 c1 r2 v2 c2).r1.y = r1.y - overlapY r1 r2 / 2 ∧
          (resolvePair r1 v1 c1 r2 v2 c2).r2.y = r2.y + overlapY r1 r2 / 2) ∨
       (¬ r1.y < r2.y ∧
          (resolvePair r1 v1 c1 r2 v2 c2).r1.y = r1.y + overlapY r1 r2 / 2 ∧
          (resolvePair r1 v1 c1 r2 v2 c2).r2.y = r2.y - overlapY r1 r2 / 2))) := by
  simp only [resolvePair, if_pos hy]
  split_ifs with hxy hx hyy <;> simp_all

/-- Witness for the amended C2 at a concrete overlapping pair. -/
theorem C2_axis_choice_witness :
    yOverlaps ⟨0, 0, 4, 4⟩ ⟨2, 2, 4, 4⟩ ∧
    ((overlapX ⟨0, 0, 4, 4⟩ ⟨2, 2, 4, 4⟩ < overlapY ⟨0, 0, 4, 4⟩ ⟨2, 2, 4, 4⟩ →
      (resolvePair ⟨0, 0, 4, 4⟩ ⟨1, 2⟩ false ⟨2, 2, 4, 4⟩ ⟨3, 4⟩ false).r1.y = (0 : ℚ) ∧
      (resolvePair ⟨0, 0, 4, 4⟩ ⟨1, 2⟩ false ⟨2, 2, 4, 4⟩ ⟨3, 4⟩ false).r2.y = 2 ∧
      (resolvePair ⟨0, 0, 4, 4⟩ ⟨1, 2⟩ false ⟨2, 2, 4, 4⟩ ⟨3, 4⟩ false).v1.y = 2 ∧
      (resolvePair ⟨0, 0, 4, 4⟩ ⟨1, 2⟩ false ⟨2, 2, 4, 4⟩ ⟨3, 4⟩ false).v2.y = 4 ∧
      (((0 : ℚ) < 2 ∧
          (resolvePair ⟨0, 0, 4, 4⟩ ⟨1, 2⟩ false ⟨2, 2, 4, 4⟩ ⟨3, 4⟩ false).r1.x =
            0 - overlapX ⟨0, 0, 4, 4⟩ ⟨2, 2, 4, 4⟩ / 2 ∧
          (resolvePair ⟨0, 0, 4, 4⟩ ⟨1, 2⟩ false ⟨2, 2, 4, 4⟩ ⟨3, 4⟩ false).r2.x =
            2 + overlapX ⟨0, 0, 4, 4⟩ ⟨2, 2, 4, 4⟩ / 2) ∨
       (¬ (0 : ℚ) < 2 ∧
          (resolvePair ⟨0, 0, 4, 4⟩ ⟨1, 2⟩ false ⟨2, 2, 4, 4⟩ ⟨3, 4⟩ false).r1.x =
            0 + overlapX ⟨0, 0, 4, 4⟩ ⟨2, 2, 4, 4⟩ / 2 ∧
          (resolvePair ⟨0, 0, 4, 4⟩ ⟨1, 2⟩ false ⟨2, 2, 4, 4⟩ ⟨3, 4⟩ false).r2.x =
            2 - overlapX ⟨0, 0, 4, 4⟩ ⟨2, 2, 4, 4⟩ / 2))) ∧
     (¬ overlapX ⟨0, 0, 4, 4⟩ ⟨2, 2, 4, 4⟩ < overlapY ⟨0, 0, 4, 4⟩ ⟨2, 2, 4, 4⟩ →
      (resolvePair ⟨0, 0, 4, 4⟩ ⟨1, 2⟩ false ⟨2, 2, 4, 4⟩ ⟨3, 4⟩ false).r1.x = 0 ∧
      (resolvePair ⟨0, 0, 4, 4⟩ ⟨1, 2⟩ false ⟨2, 2, 4, 4⟩ ⟨3, 4⟩ false).r2.x = 2 ∧
      (resolvePair ⟨0, 0, 4, 4⟩ ⟨1, 2⟩ false ⟨2, 2, 4, 4⟩ ⟨3, 4⟩ false).v1.x = 1 ∧
      (resolvePair ⟨0, 0, 4, 4⟩ ⟨1, 2⟩ false ⟨2, 2, 4, 4⟩ ⟨3, 4⟩ false).v2.x = 3 ∧
      (((0 : ℚ) < 2 ∧
          (resolvePair ⟨0, 0, 4, 4⟩ ⟨1, 2⟩ false ⟨2, 2, 4, 4⟩ ⟨3, 4⟩ false).r1.y =
            0 - overlapY ⟨0, 0, 4, 4⟩ ⟨2, 2, 4, 4⟩ / 2 ∧
          (resolvePair ⟨0, 0, 4, 4⟩ ⟨1, 2⟩ false ⟨2, 2, 4, 4⟩ ⟨3, 4⟩ false).r2.y =
            2 + overlapY ⟨0, 0, 4, 4⟩ ⟨2, 2, 4, 4⟩ / 2) ∨
       (¬ (0 : ℚ) < 2 ∧
          (resolvePair ⟨0, 0, 4, 4⟩ ⟨1, 2⟩ false ⟨2, 2, 4, 4⟩ ⟨3, 4⟩ false).r1.y =
            0 + overlapY ⟨0, 0, 4, 4⟩ ⟨2, 2, 4, 4⟩ / 2 ∧
          (resolvePair ⟨0, 0, 4, 4⟩ ⟨1, 2⟩ false ⟨2, 2, 4, 4⟩ ⟨3, 4⟩ false).r2.y =
            2 - overlapY ⟨0, 0, 4, 4⟩ ⟨2, 2, 4, 4⟩ / 2)))) :=
  ⟨by norm_num [yOverlaps],
   C2_axis_choice ⟨0, 0, 4, 4⟩ ⟨1, 2⟩ false ⟨2, 2, 4, 4⟩ ⟨3, 4⟩ false (by norm_num [yOverlaps])⟩

/-! ## C8: velocity exchange -/

/-- Claim C8: for every resolved pair the velocity exchange on the chosen axis
is a pure swap — each body receives the other's component on that axis — and
both orthogonal components are untouched, so the multiset of the two
components on the chosen axis is unchanged. -/
theorem C8_velocity_swap (r1 : Rect) (v1 : Velocity) (c1 : Bool)
    (r2 : Rect) (v2 : Velocity) (c2 : Bool) (hy : yOverlaps r1 r2) :
    (overlapX r1 r2 < overlapY r1 r2 →
      (resolvePair r1 v1 c1 r2 v2 c2).v1.x = v2.x ∧
      (resolvePair r1 v1 c1 r2 v2 c2).v2.x = v1.x ∧
      (resolvePair r1 v1 c1 r2 v2 c2).v1.y = v1.y ∧
      (resolvePair r1 v1 c1 r2 v2 c2).v2.y = v2.y) ∧
    (¬ overlapX r1 r2 < overlapY r1 r2 →
      (resolvePair r1 v1 c1 r2 v2 c2).v1.y = v2.y ∧
      (resolvePair r1 v1 c1 r2 v2 c2).v2.y = v1.y ∧
      (resolvePair r1 v1 c1 r2 v2 c2).v1.x = v1.x ∧
      (resolvePair r1 v1 c1 r2 v2 c2).v2.x = v2.x) := by
  simp only [resolvePair, if_pos hy]
  split_ifs with hxy hx hyy <;> simp_all

/-- Witness for C8 at a concrete overlapping pair. -/
theorem C8_velocity_swap_witness :
    yOverlaps ⟨0, 0, 4, 4⟩ ⟨1, 2, 4, 4⟩ ∧
    ((overlapX ⟨0, 0, 4, 4⟩ ⟨1, 2, 4, 4⟩ < overlapY ⟨0, 0, 4, 4⟩ ⟨1, 2, 4, 4⟩ →
      (resolvePair ⟨0, 0, 4, 4⟩ ⟨1, 2⟩ false ⟨1, 2, 4, 4⟩ ⟨3, 4⟩ false).v1.x = (3 : ℚ) ∧
      (resolvePair ⟨0, 0, 4, 4⟩ ⟨1, 2⟩ false ⟨1, 2, 4, 4⟩ ⟨3, 4⟩ false).v2.x = 1 ∧
      (resolvePair ⟨0, 0, 4, 4⟩ ⟨1, 2⟩ false ⟨1, 2, 4, 4⟩ ⟨3, 4⟩ false).v1.y = 2 ∧
      (resolvePair ⟨0, 0, 4, 4⟩ ⟨1, 2⟩ false ⟨1, 2, 4, 4⟩ ⟨3, 4⟩ false).v2.y = 4) ∧
     (¬ overlapX ⟨0, 0, 4, 4⟩ ⟨1, 2, 4, 4⟩ < overlapY ⟨0, 0, 4, 4⟩ ⟨1, 2, 4, 4⟩ →
      (resolvePair ⟨0, 0, 4, 4⟩ ⟨1, 2⟩ false ⟨1, 2, 4, 4⟩ ⟨3, 4⟩ false).v1.y = (4 : ℚ) ∧
      (resolvePair ⟨0, 0, 4, 4⟩ ⟨1, 2⟩ false ⟨1, 2, 4, 4⟩ ⟨3, 4⟩ false).v2.y = 2 ∧
      (resolvePair ⟨0, 0, 4, 4⟩ ⟨1, 2⟩ false ⟨1, 2, 4, 4⟩ ⟨3, 4⟩ false).v1.x = 1 ∧
      (resolvePair ⟨0, 0, 4, 4⟩ ⟨1, 2⟩ false ⟨1, 2, 4, 4⟩ ⟨3, 4⟩ false).v2.x = 3)) :=
  ⟨by norm_num [yOverlaps],
   C8_velocity_swap ⟨0, 0, 4, 4⟩ ⟨1, 2⟩ false ⟨1, 2, 4, 4⟩ ⟨3, 4⟩ false (by norm_num [yOverlaps])⟩

/-! ## C5: separation reduces overlap -/

/-- Claim C5 counterexample: for `r1 = (0,0,100,100)` and `r2 = (10,0,4,100)`
(the X-interval of `r2` strictly contained in that of `r1`) the pair is
confirmed, the X axis is chosen (`overlapX = 4 < 100 = overlapY`), both
bodies are displaced by half the overlap, and yet the post-resolution overlap
on the chosen axis is still `4`, not `0`. -/
theorem C5_counterexample :
    (resolvePair ⟨0, 0, 100, 100⟩ ⟨0, 0⟩ false ⟨10, 0, 4, 100⟩ ⟨0, 0⟩ false).hit = true ∧
    overlapX ⟨0, 0, 100, 100⟩ ⟨10, 0, 4, 100⟩ < overlapY ⟨0, 0, 100, 100⟩ ⟨10, 0, 4, 100⟩ ∧
    overlapX (resolvePair ⟨0, 0, 100, 100⟩ ⟨0, 0⟩ false ⟨10, 0, 4, 100⟩ ⟨0, 0⟩ false).r1
      (resolvePair ⟨0, 0, 100, 100⟩ ⟨0, 0⟩ false ⟨10, 0, 4, 100⟩ ⟨0, 0⟩ false).r2 = 4 := by
  norm_num [resolvePair, overlapX, overlapY, yOverlaps, min_def, max_def]

/-- Arithmetic core of the amended C5 (smaller-coordinate body moves
negative): splitting the overlap in half closes it exactly when the
negatively displaced interval's far edge is not beyond the other's. -/
theorem sepHalf_left (x1 w1 x2 w2 : ℚ) (hlt : x1 ≤ x2) (hle : x1 + w1 ≤ x2 + w2)
    (h0 : 0 ≤ x1 + w1 - x2) :
    ((x1 - ((x1 + w1) ⊓ (x2 + w2) - x1 ⊔ x2) / 2 + w1) ⊓
        (x2 + ((x1 + w1) ⊓ (x2 + w2) - x1 ⊔ x2) / 2 + w2)) -
      ((x1 - ((x1 + w1) ⊓ (x2 + w2) - x1 ⊔ x2) / 2) ⊔
        (x2 + ((x1 + w1) ⊓ (x2 + w2) - x1 ⊔ x2) / 2)) = 0 := by
  have e1 : (x1 + w1) ⊓ (x2 + w2) = x1 + w1 := min_eq_left hle
  have e2 : x1 ⊔ x2 = x2 := max_eq_right hlt
  rw [e1, e2]
  have e3 : x1 - (x1 + w1 - x2) / 2 + w1 ≤ x2 + (x1 + w1 - x2) / 2 + w2 := by linarith
  have e4 : x1 - (x1 + w1 - x2) / 2 ≤ x2 + (x1 + w1 - x2) / 2 := by linarith
  rw [min_eq_left e3, max_eq_right e4]
  ring

/-- Arithmetic core of the amended C5, mirrored branch (larger-or-equal
coordinate body `r1` moves positive). -/
theorem sepHalf_right (x1 w1 x2 w2 : ℚ) (hge : x2 ≤ x1) (hle : x2 + w2 ≤ x1 + w1)
    (h0 : 0 ≤ x2 + w2 - x1) :
    ((x1 + ((x1 + w1) ⊓ (x2 + w2) - x1 ⊔ x2) / 2 + w1) ⊓
        (x2 - ((x1 + w1) ⊓ (x2 + w2) - x1 ⊔ x2) / 2 + w2)) -
      ((x1 + ((x1 + w1) ⊓ (x2 + w2) - x1 ⊔ x2) / 2) ⊔
        (x2 - ((x1 + w1) ⊓ (x2 + w2) - x1 ⊔ x2) / 2)) = 0 := by
  have e1 : (x1 + w1) ⊓ (x2 + w2) = x2 + w2 := min_eq_right hle
  have e2 : x1 ⊔ x2 = x1 := max_eq_left hge
  rw [e1, e2]
  have e3 : x2 - (x2 + w2 - x1) / 2 + w2 ≤ x1 + (x2 + w2 - x1) / 2 + w1 := by linarith
  have e4 : x2 - (x2 + w2 - x1) / 2 ≤ x1 + (x2 + w2 - x1) / 2 := by linarith
  rw [min_eq_right e3, max_eq_left e4]
  ring

/-- Claim C5 (amended): after resolution of a confirmed pair on the chosen
axis, the post-resolution overlap on that axis is exactly `0` *provided* the
body displaced in the negative direction (the one with the smaller
coordinate; `r1` on coordinate ties) does not have its far edge strictly
beyond the other body's far edge on that axis.  Under strict containment of
one interval in the other the residual overlap can stay positive (see the
counterexample). -/
theorem C5_separation_zero (r1 : Rect) (v1 : Velocity) (c1 : Bool)
    (r2 : Rect) (v2 : Velocity) (c2 : Bool) (hy : yOverlaps r1 r2)
    (hx0 : 0 ≤ overlapX r1 r2) (hy0 : 0 ≤ overlapY r1 r2) :
    (overlapX r1 r2 < overlapY r1 r2 →
      (r1.x < r2.x → r1.x + r1.w ≤ r2.x + r2.w) →
      (r2.x ≤ r1.x → r2.x + r2.w ≤ r1.x + r1.w) →
      overlapX (resolvePair r1 v1 c1 r2 v2 c2).r1 (resolvePair r1 v1 c1 r2 v2 c2).r2 = 0) ∧
    (¬ overlapX r1 r2 < overlapY r1 r2 →
      (r1.y < r2.y → r1.y + r1.h ≤ r2.y + r2.h) →
      (r2.y ≤ r1.y → r2.y + r2.h ≤ r1.y + r1.h) →
      overlapY (resolvePair r1 v1 c1 r2 v2 c2).r1 (resolvePair r1 v1 c1 r2 v2 c2).r2 = 0) := by
  constructor
  · intro hxy hlo hhi
    by_cases hlt : r1.x < r2.x
    · have hle := hlo hlt
      have ho0 : (0 : ℚ) ≤ r1.x + r1.w - r2.x := by
        have h := hx0
        unfold overlapX at h
        rwa [min_eq_left hle, max_eq_right hlt.le] at h
      simp only [resolvePair, if_pos hy, if_pos hxy, if_pos hlt]
      simp only [overlapX]
      exact sepHalf_left r1.x r1.w r2.x r2.w hlt.le hle ho0
    · have hge : r2.x ≤ r1.x := not_lt.mp hlt
      have hle := hhi hge
      have ho0 : (0 : ℚ) ≤ r2.x + r2.w - r1.x := by
        have h := hx0
        unfold overlapX at h
        rwa [min_eq_right hle, max_eq_left hge] at h
      simp only [resolvePair, if_pos hy, if_pos hxy, if_neg hlt]
      simp only [overlapX]
      exact sepHalf_right r1.x r1.w r2.x r2.w hge hle ho0
  · intro hxy hlo hhi
    by_cases hlt : r1.y < r2.y
    · have hle := hlo hlt
      have ho0 : (0 : ℚ) ≤ r1.y + r1.h - r2.y := by
        have h := hy0
        unfold overlapY at h
        rwa [min_eq_left hle, max_eq_right hlt.le] at h
      simp only [resolvePair, if_pos hy, if_neg hxy, if_pos hlt]
      simp only [overlapY]
      exact sepHalf_left r1.y r1.h r2.y r2.h hlt.le hle ho0
    · have hge : r2.y ≤ r1.y := not_lt.mp hlt
      have hle := hhi hge
      have ho0 : (0 : ℚ) ≤ r2.y + r2.h - r1.y := by
        have h := hy0
        unfold overlapY at h
        rwa [min_eq_right hle, max_eq_left hge] at h
      simp only [resolvePair, if_pos hy, if_neg hxy, if_neg hlt]
      simp only [overlapY]
      exact sepHalf_right r1.y r1.h r2.y r2.h hge hle ho0

/-- Witness for the amended C5: two 10×10 squares overlapping by 7 on X. -/
theorem C5_separation_zero_witness :
    (yOverlaps ⟨1, 0, 10, 10⟩ ⟨4, 0, 10, 10⟩ ∧
     0 ≤ overlapX ⟨1, 0, 10, 10⟩ ⟨4, 0, 10, 10⟩ ∧
     0 ≤ overlapY ⟨1, 0, 10, 10⟩ ⟨4, 0, 10, 10⟩) ∧
    ((overlapX ⟨1, 0, 10, 10⟩ ⟨4, 0, 10, 10⟩ < overlapY ⟨1, 0, 10, 10⟩ ⟨4, 0, 10, 10⟩ →
      ((1 : ℚ) < 4 → (1 : ℚ) + 10 ≤ 4 + 10) →
      ((4 : ℚ) ≤ 1 → (4 : ℚ) + 10 ≤ 1 + 10) →
      overlapX (resolvePair ⟨1, 0, 10, 10⟩ ⟨1, 0⟩ false ⟨4, 0, 10, 10⟩ ⟨-1, 0⟩ false).r1
        (resolvePair ⟨1, 0, 10, 10⟩ ⟨1, 0⟩ false ⟨4, 0, 10, 10⟩ ⟨-1, 0⟩ false).r2 = 0) ∧
     (¬ overlapX ⟨1, 0, 10, 10⟩ ⟨4, 0, 10, 10⟩ < overlapY ⟨1, 0, 10, 10⟩ ⟨4, 0, 10, 10⟩ →
      ((0 : ℚ) < 0 → (0 : ℚ) + 10 ≤ 0 + 10) →
      ((0 : ℚ) ≤ 0 → (0 : ℚ) + 10 ≤ 0 + 10) →
      overlapY (resolvePair ⟨1, 0, 10, 10⟩ ⟨1, 0⟩ false ⟨4, 0, 10, 10⟩ ⟨-1, 0⟩ false).r1
        (resolvePair ⟨1, 0, 10, 10⟩ ⟨1, 0⟩ false ⟨4, 0, 10, 10⟩ ⟨-1, 0⟩ false).r2 = 0)) :=
  ⟨⟨by norm_num [yOverlaps], by norm_num [overlapX, min_def, max_def],
    by norm_num [overlapY, min_def, max_def]⟩,
   C5_separation_zero ⟨1, 0, 10, 10⟩ ⟨1, 0⟩ false ⟨4, 0, 10, 10⟩ ⟨-1, 0⟩ false
     (by norm_num [yOverlaps]) (by norm_num [overlapX, min_def, max_def])
     (by norm_num [overlapY, min_def, max_def])⟩

/-! ## C6: symmetry of the response -/

/-- The Y-overlap test is symmetric. -/
theorem yOverlaps_comm (r1 r2 : Rect) : yOverlaps r1 r2 ↔ yOverlaps r2 r1 := by
  unfold yOverlaps; constructor <;> rintro ⟨a, b⟩ <;> exact ⟨by linarith, by linarith⟩

/-- The X-overlap magnitude is symmetric. -/
theorem overlapX_comm (r1 r2 : Rect) : overlapX r1 r2 = overlapX r2 r1 := by
  unfold overlapX; rw [min_comm, max_comm]

/-- The Y-overlap magnitude is symmetric. -/
theorem overlapY_comm (r1 r2 : Rect) : overlapY r1 r2 = overlapY r2 r1 := by
  unfold overlapY; rw [min_comm, max_comm]

/-- Claim C6 counterexample: the response is *not* symmetric in its arguments
when the two bodies have exactly equal coordinates on the chosen axis:
for `r1 = (0,0,2,10)` and `r2 = (0,1,5,10)` (equal `x`, X axis chosen) the
call `(r1, r2)` moves body 1 to `x = 1`, while the swapped call `(r2, r1)`
moves body 1 to `x = -1`: the two orders displace the bodies in opposite
directions. -/
theorem C6_counterexample :
    (resolvePair ⟨0, 0, 2, 10⟩ ⟨1, 2⟩ false ⟨0, 1, 5, 10⟩ ⟨3, 4⟩ false).hit = true ∧
    (resolvePair ⟨0, 1, 5, 10⟩ ⟨3, 4⟩ false ⟨0, 0, 2, 10⟩ ⟨1, 2⟩ false).hit = true ∧
    (resolvePair ⟨0, 0, 2, 10⟩ ⟨1, 2⟩ false ⟨0, 1, 5, 10⟩ ⟨3, 4⟩ false).r1.x = 1 ∧
    (resolvePair ⟨0, 1, 5, 10⟩ ⟨3, 4⟩ false ⟨0, 0, 2, 10⟩ ⟨1, 2⟩ false).r2.x = -1 ∧
    (resolvePair ⟨0, 1, 5, 10⟩ ⟨3, 4⟩ false ⟨0, 0, 2, 10⟩ ⟨1, 2⟩ false).r2 ≠
      (resolvePair ⟨0, 0, 2, 10⟩ ⟨1, 2⟩ false ⟨0, 1, 5, 10⟩ ⟨3, 4⟩ false).r1 := by
  norm_num [resolvePair, overlapX, overlapY, yOverlaps, min_def, max_def, Rect.mk.injEq]

/-- Claim C6 (amended): the response is symmetric in the order of its two
arguments (same final rectangles, velocities and flags for both bodies)
*provided* the two bodies' coordinates on the chosen axis are not exactly
equal; on an exact coordinate tie on the chosen axis the two orders displace
the bodies in opposite directions (see the counterexample), while flags and
velocity exchange are symmetric in every case. -/
theorem C6_response_symmetric (r1 : Rect) (v1 : Velocity) (c1 : Bool)
    (r2 : Rect) (v2 : Velocity) (c2 : Bool)
    (hx : overlapX r1 r2 < overlapY r1 r2 → r1.x ≠ r2.x)
    (hyt : ¬ overlapX r1 r2 < overlapY r1 r2 → r1.y ≠ r2.y) :
    (resolvePair r2 v2 c2 r1 v1 c1).r1 = (resolvePair r1 v1 c1 r2 v2 c2).r2 ∧
    (resolvePair r2 v2 c2 r1 v1 c1).v1 = (resolvePair r1 v1 c1 r2 v2 c2).v2 ∧
    (resolvePair r2 v2 c2 r1 v1 c1).c1 = (resolvePair r1 v1 c1 r2 v2 c2).c2 ∧
    (resolvePair r2 v2 c2 r1 v1 c1).r2 = (resolvePair r1 v1 c1 r2 v2 c2).r1 ∧
    (resolvePair r2 v2 c2 r1 v1 c1).v2 = (resolvePair r1 v1 c1 r2 v2 c2).v1 ∧
    (resolvePair r2 v2 c2 r1 v1 c1).c2 = (resolvePair r1 v1 c1 r2 v2 c2).c1 ∧
    (resolvePair r2 v2 c2 r1 v1 c1).hit = (resolvePair r1 v1 c1 r2 v2 c2).hit := by
  simp only [resolvePair, overlapX_comm r2 r1, overlapY_comm r2 r1]
  by_cases hy : yOverlaps r1 r2
  · simp only [if_pos hy, if_pos ((yOverlaps_comm r1 r2).mp hy)]
    by_cases hxy : overlapX r1 r2 < overlapY r1 r2
    · simp only [if_pos hxy]
      rcases (hx hxy).lt_or_lt with hlt | hlt
      · simp only [if_pos hlt, if_neg (asymm hlt)]
        refine ⟨?_, ?_, ?_, ?_, ?_, ?_, ?_⟩ <;> trivial
      · simp only [if_pos hlt, if_neg (asymm hlt)]
        refine ⟨?_, ?_, ?_, ?_, ?_, ?_, ?_⟩ <;> trivial
    · simp only [if_neg hxy]
      rcases (hyt hxy).lt_or_lt with hlt | hlt
      · simp only [if_pos hlt, if_neg (asymm hlt)]
        refine ⟨?_, ?_, ?_, ?_, ?_, ?_, ?_⟩ <;> trivial
      · simp only [if_pos hlt, if_neg (asymm hlt)]
        refine ⟨?_, ?_, ?_, ?_, ?_, ?_, ?_⟩ <;> trivial
  · simp only [if_neg hy, if_neg (fun h => hy ((yOverlaps_comm r1 r2).mpr h))]
    refine ⟨?_, ?_, ?_, ?_, ?_, ?_, ?_⟩ <;> trivial

/-- Witness for the amended C6 at a concrete pair with distinct coordinates
on the chosen axis. -/
theorem C6_response_symmetric_witness :
    ((overlapX ⟨0, 0, 4, 4⟩ ⟨1, 2, 4, 4⟩ < overlapY ⟨0, 0, 4, 4⟩ ⟨1, 2, 4, 4⟩ →
        (0 : ℚ) ≠ 1) ∧
     (¬ overlapX ⟨0, 0, 4, 4⟩ ⟨1, 2, 4, 4⟩ < overlapY ⟨0, 0, 4, 4⟩ ⟨1, 2, 4, 4⟩ →
        (0 : ℚ) ≠ 2)) ∧
    ((resolvePair ⟨1, 2, 4, 4⟩ ⟨3, 4⟩ false ⟨0, 0, 4, 4⟩ ⟨1, 2⟩ false).r1 =
       (resolvePair ⟨0, 0, 4, 4⟩ ⟨1, 2⟩ false ⟨1, 2, 4, 4⟩ ⟨3, 4⟩ false).r2 ∧
     (resolvePair ⟨1, 2, 4, 4⟩ ⟨3, 4⟩ false ⟨0, 0, 4, 4⟩ ⟨1, 2⟩ false).v1 =
       (resolvePair ⟨0, 0, 4, 4⟩ ⟨1, 2⟩ false ⟨1, 2, 4, 4⟩ ⟨3, 4⟩ false).v2 ∧
     (resolvePair ⟨1, 2, 4, 4⟩ ⟨3, 4⟩ false ⟨0, 0, 4, 4⟩ ⟨1, 2⟩ false).c1 =
       (resolvePair ⟨0, 0, 4, 4⟩ ⟨1, 2⟩ false ⟨1, 2, 4, 4⟩ ⟨3, 4⟩ false).c2 ∧
     (resolvePair ⟨1, 2, 4, 4⟩ ⟨3, 4⟩ false ⟨0, 0, 4, 4⟩ ⟨1, 2⟩ false).r2 =
       (resolvePair ⟨0, 0, 4, 4⟩ ⟨1, 2⟩ false ⟨1, 2, 4, 4⟩ ⟨3, 4⟩ false).r1 ∧
     (resolvePair ⟨1, 2, 4, 4⟩ ⟨3, 4⟩ false ⟨0, 0, 4, 4⟩ ⟨1, 2⟩ false).v2 =
       (resolvePair ⟨0, 0, 4, 4⟩ ⟨1, 2⟩ false ⟨1, 2, 4, 4⟩ ⟨3, 4⟩ false).v1 ∧
     (resolvePair ⟨1, 2, 4, 4⟩ ⟨3, 4⟩ false ⟨0, 0, 4, 4⟩ ⟨1, 2⟩ false).c2 =
       (resolvePair ⟨0, 0, 4, 4⟩ ⟨1, 2⟩ false ⟨1, 2, 4, 4⟩ ⟨3, 4⟩ false).c1 ∧
     (resolvePair ⟨1, 2, 4, 4⟩ ⟨3, 4⟩ false ⟨0, 0, 4, 4⟩ ⟨1, 2⟩ false).hit =
       (resolvePair ⟨0, 0, 4, 4⟩ ⟨1, 2⟩ false ⟨1, 2, 4, 4⟩ ⟨3, 4⟩ false).hit) :=
  ⟨⟨fun _ => by norm_num, fun _ => by norm_num⟩,
   C6_response_symmetric ⟨0, 0, 4, 4⟩ ⟨1, 2⟩ false ⟨1, 2, 4, 4⟩ ⟨3, 4⟩ false
     (fun _ => by norm_num) (fun _ => by norm_num)⟩

/-! ## Basic facts about the sweep data structures -/

/-- Swap-removal behaves like erasing one occurrence, up to order. -/
theorem swapRemove_perm_erase (e : Entity) :
    ∀ l : List Entity, (swapRemove l e).Perm (l.erase e)
  | [] => by simp [swapRemove]
  | x :: xs => by
    by_cases hmem : e ∈ x :: xs
    · rw [swapRemove, if_pos hmem]
      by_cases hx : x = e
      · subst hx
        rw [List.indexOf_cons_self, List.erase_cons_head, List.set_cons_zero]
        rcases List.eq_nil_or_concat xs with hnil | ⟨ys, z, hys⟩
        · subst hnil; simp
        · rw [hys, List.concat_eq_append, List.getLastD_cons, List.getLastD_concat,
            ← List.cons_append, List.dropLast_concat]
          exact (List.perm_append_singleton z ys).symm
      · have hxs : e ∈ xs := by
          rcases List.mem_cons.mp hmem with h | h
          · exact absurd h.symm hx
          · exact h
        have hne : xs ≠ [] := List.ne_nil_of_mem hxs
        have hgl : (x :: xs).getLastD 0 = xs.getLastD 0 := by
          rw [List.getLastD_cons, List.getLastD_eq_getLast?, List.getLastD_eq_getLast?,
            List.getLast?_eq_getLast xs hne]
          rfl
        rw [List.indexOf_cons_ne _ (fun h => hx h), hgl, Nat.succ_eq_add_one,
          List.set_cons_succ]
        have hset : xs.set (List.indexOf e xs) (xs.getLastD 0) ≠ [] := by
          intro hcon
          apply hne
          have hlen := List.length_set xs (List.indexOf e xs) (xs.getLastD 0)
          rw [hcon] at hlen
          exact List.eq_nil_of_length_eq_zero hlen.symm
        rw [List.dropLast_cons_of_ne_nil hset,
          List.erase_cons_tail (by simp [hx])]
        have hrec := swapRemove_perm_erase e xs
        rw [swapRemove, if_pos hxs] at hrec
        exact hrec.cons x
    · rw [swapRemove, if_neg hmem, List.erase_of_not_mem hmem]

/-- Swap-removal of an absent entity is a silent no-op. -/
theorem swapRemove_of_not_mem {l : List Entity} {e : Entity} (h : e ∉ l) :
    swapRemove l e = l := by
  rw [swapRemove, if_neg h]

/-- Swap-removal preserves freedom from duplicates. -/
theorem swapRemove_nodup {l : List Entity} (e : Entity) (h : l.Nodup) :
    (swapRemove l e).Nodup :=
  ((swapRemove_perm_erase e l).nodup_iff).mpr (h.erase e)

/-- Membership in the swap-removed active list, for duplicate-free lists. -/
theorem mem_swapRemove {l : List Entity} {e a : Entity} (h : l.Nodup) :
    a ∈ swapRemove l e ↔ a ≠ e ∧ a ∈ l := by
  rw [(swapRemove_perm_erase e l).mem_iff]
  exact h.mem_erase_iff

/-- The active-list transition of a single endpoint, separated from the
store: the code consults only entity identities and edge kinds to maintain
the active list, never positions. -/
def activeStep (cap : ℕ) (A : List Entity) (iv : Interval) : List Entity :=
  if iv.isLeftEdge then (if A.length < cap then A ++ [iv.entity] else A)
  else swapRemove A iv.entity

/-- The active list after processing a list of endpoints. -/
def activeRun (cap : ℕ) (eps : List Interval) (A : List Entity) : List Entity :=
  eps.foldl (activeStep cap) A

/-- The trace of ordered pairs submitted to the narrow-phase Y-test while
processing a list of endpoints, starting from active list `A`. -/
def testedRun (cap : ℕ) : List Interval → List Entity → List (Entity × Entity)
  | [], _ => []
  | iv :: rest, A =>
    (if iv.isLeftEdge then A.map (fun e2 => (iv.entity, e2)) else []) ++
      testedRun cap rest (activeStep cap A iv)

/-- The narrow phase submits exactly the current active list (in order)
against the entering entity. -/
theorem narrowPhase_tested (e1 : Entity) :
    ∀ (A : List Entity) (σ : Store) (t c : List (Entity × Entity)),
      (narrowPhase e1 A σ t c).2.1 = t ++ A.map (fun e2 => (e1, e2))
  | [], _, _, _ => by simp [narrowPhase]
  | e2 :: rest, σ, t, c => by
    simp only [narrowPhase]
    rw [narrowPhase_tested e1 rest]
    simp

/-- One sweep step changes the active list exactly as `activeStep`. -/
theorem sweepStep_active (cap : ℕ) (s : SweepState) (iv : Interval) :
    (sweepStep cap s iv).active = activeStep cap s.active iv := by
  rw [sweepStep, activeStep]
  by_cases h : iv.isLeftEdge = true
  · simp [h]
  · simp [h]

/-- The active list of the sweep is the pure `activeRun`: it does not depend
on the store (positions cannot influence pruning decisions). -/
theorem sweep_active (cap : ℕ) :
    ∀ (eps : List Interval) (s : SweepState),
      (sweep cap eps s).active = activeRun cap eps s.active
  | [], s => rfl
  | iv :: rest, s => by
    show (sweep cap rest (sweepStep cap s iv)).active = activeRun cap (iv :: rest) s.active
    rw [sweep_active cap rest, sweepStep_active]
    rfl

/-- The submitted-pair trace of the sweep is the pure `testedRun` over the
initial tested accumulator: it, too, is independent of the store. -/
theorem sweep_tested (cap : ℕ) :
    ∀ (eps : List Interval) (s : SweepState),
      (sweep cap eps s).tested = s.tested ++ testedRun cap eps s.active
  | [], s => by simp [sweep, testedRun]
  | iv :: rest, s => by
    show (sweep cap rest (sweepStep cap s iv)).tested =
      s.tested ++ testedRun cap (iv :: rest) s.active
    rw [sweep_tested cap rest, sweepStep_active, testedRun]
    by_cases h : iv.isLeftEdge = true
    · simp [sweepStep, h, narrowPhase_tested, List.append_assoc]
    · simp [sweepStep, h]

/-! ## C3 and C9: silent failure modes of the active list -/

/-- Claim C3: processing a right endpoint whose entity is absent from the
active list is a *silent no-op*: the sweep state is returned completely
unchanged, and no error of any kind is raised (the model is total — the Go
loop simply finds no index to remove and falls through). -/
theorem C3_right_absent_silent_noop (cap : ℕ) (s : SweepState) (x : ℚ) (e : Entity)
    (h : e ∉ s.active) :
    sweepStep cap s ⟨x, false, e⟩ = s := by
  rw [sweepStep]
  simp [swapRemove_of_not_mem h]

/-- Witness for C3: a concrete right endpoint for an absent body. -/
theorem C3_right_absent_silent_noop_witness :
    (3 : Entity) ∉ (initState (fun _ => ⟨⟨0, 0, 1, 1⟩, ⟨0, 0⟩, false⟩)).active ∧
    sweepStep 10000 (initState (fun _ => ⟨⟨0, 0, 1, 1⟩, ⟨0, 0⟩, false⟩)) ⟨10, false, 3⟩ =
      initState (fun _ => ⟨⟨0, 0, 1, 1⟩, ⟨0, 0⟩, false⟩) :=
  ⟨by simp [initState],
   C3_right_absent_silent_noop 10000 (initState (fun _ => ⟨⟨0, 0, 1, 1⟩, ⟨0, 0⟩, false⟩)) 10 3
     (by simp [initState])⟩

/-- Store for the capacity demonstration: every entity has X-interval
`[0, 10]`, and entity `e` occupies `y ∈ [20e, 20e+1]`, so Y-intervals are
pairwise disjoint and the narrow phase never mutates anything. -/
def demoStore : Store := fun e =>
  { rect := { x := 0, y := 20 * (e : ℚ), w := 10, h := 1 },
    vel := { x := 0, y := 0 }, isColliding := false }

/-- A sorted endpoint stream for four bodies with identical X-intervals. -/
def demoEps : List Interval :=
  [⟨0, true, 1⟩, ⟨0, true, 2⟩, ⟨0, true, 3⟩, ⟨0, true, 4⟩,
   ⟨10, false, 1⟩, ⟨10, false, 2⟩, ⟨10, false, 3⟩, ⟨10, false, 4⟩]

/-- Claim C9: when the active list is full the insertion guard
`g.activeLen < len(g.activeList)` silently declines to insert the entering
body — no buffer growth, no reported condition — and that body's later
collision pairs are silently missed.  With capacity 2 and four bodies whose
X-intervals all coincide, bodies 3 and 4 are never inserted (the active list
after all four left edges is still `[1, 2]`), and the overlapping pair
`{3, 4}` is never submitted to the narrow phase (it appears nowhere in the
full tick's trace). -/
theorem C9_silent_capacity_skip :
    (sweep 2 (demoEps.take 4) (initState demoStore)).active = [1, 2] ∧
    (sweep 2 demoEps (initState demoStore)).tested =
      [(2, 1), (3, 1), (3, 2), (4, 1), (4, 2)] := by
  constructor
  · rw [sweep_active]
    norm_num [demoEps, activeRun, activeStep, List.foldl, initState]
  · rw [sweep_tested]
    norm_num [demoEps, testedRun, activeRun, activeStep, swapRemove, initState,
      List.indexOf_cons_self, List.indexOf_cons_ne]

/-! ## C10: no self-tests, no duplicates in the active list -/

/-- Invariant behind C10, by induction along the endpoint stream: if the
active list is duplicate-free and none of its members has a left endpoint
still ahead, and the stream's left endpoints carry pairwise distinct
entities, then no submitted pair is a self-pair and every intermediate
active list is duplicate-free. -/
theorem testedRun_ne_and_nodup (cap : ℕ) :
    ∀ (eps : List Interval) (A : List Entity),
      A.Nodup →
      (∀ e ∈ A, ∀ iv ∈ eps, iv.isLeftEdge = true → iv.entity ≠ e) →
      ((eps.filter (fun iv => iv.isLeftEdge)).map Interval.entity).Nodup →
      (∀ p ∈ testedRun cap eps A, p.1 ≠ p.2) ∧
      (∀ k, (activeRun cap (eps.take k) A).Nodup)
  | [], A, hA, _, _ => by
    refine ⟨fun p hp => absurd hp (by simp [testedRun]), fun k => ?_⟩
    simpa [activeRun] using hA
  | iv :: rest, A, hA, hmem, hlefts => by
    by_cases h : iv.isLeftEdge = true
    · have hnotA : iv.entity ∉ A := fun hin =>
        (hmem iv.entity hin iv (List.mem_cons_self iv rest) h) rfl
      have hA' : (activeStep cap A iv).Nodup := by
        rw [activeStep, if_pos h]
        by_cases hlen : A.length < cap
        · rw [if_pos hlen]
          exact hA.append (List.nodup_cons.mpr ⟨List.not_mem_nil _, List.nodup_nil⟩)
            (List.disjoint_singleton.mpr hnotA)
        · rw [if_neg hlen]; exact hA
      have hfl : (List.filter (fun iv => iv.isLeftEdge) (iv :: rest)) =
          iv :: List.filter (fun iv => iv.isLeftEdge) rest := by
        simp [List.filter_cons, h]
      rw [hfl] at hlefts
      simp only [List.map_cons, List.nodup_cons] at hlefts
      have hmem' : ∀ e ∈ activeStep cap A iv, ∀ iv' ∈ rest,
          iv'.isLeftEdge = true → iv'.entity ≠ e := by
        intro e he iv' hiv' hleft
        have he' : e ∈ A ∨ e = iv.entity := by
          rw [activeStep, if_pos h] at he
          by_cases hlen : A.length < cap
          · rw [if_pos hlen] at he
            rcases List.mem_append.mp he with h1 | h1
            · exact Or.inl h1
            · exact Or.inr (List.mem_singleton.mp h1)
          · rw [if_neg hlen] at he; exact Or.inl he
        rcases he' with h1 | h1
        · exact hmem e h1 iv' (List.mem_cons_of_mem iv hiv') hleft
        · subst h1
          intro hcon
          exact hlefts.1 (List.mem_map.mpr ⟨iv', List.mem_filter.mpr ⟨hiv', by simp [hleft]⟩, hcon⟩)
      have ih := testedRun_ne_and_nodup cap rest (activeStep cap A iv) hA' hmem' hlefts.2
      constructor
      · intro p hp
        rw [testedRun, if_pos h] at hp
        rcases List.mem_append.mp hp with h1 | h1
        · rcases List.mem_map.mp h1 with ⟨e2, he2, rfl⟩
          intro hcon
          simp only at hcon
          exact hnotA (by rw [hcon]; exact he2)
        · exact ih.1 p h1
      · intro k
        cases k with
        | zero => simpa [activeRun] using hA
        | succ k =>
          rw [List.take_succ_cons]
          have : activeRun cap (iv :: rest.take k) A =
              activeRun cap (rest.take k) (activeStep cap A iv) := rfl
          rw [this]
          exact ih.2 k
    · have hA' : (activeStep cap A iv).Nodup := by
        rw [activeStep, if_neg h]
        exact swapRemove_nodup iv.entity hA
      have hsub : ∀ e ∈ activeStep cap A iv, e ∈ A := by
        intro e he
        rw [activeStep, if_neg h] at he
        exact ((mem_swapRemove hA).mp he).2
      have hfl : (List.filter (fun iv => iv.isLeftEdge) (iv :: rest)) =
          List.filter (fun iv => iv.isLeftEdge) rest := by
        simp [List.filter_cons, h]
      rw [hfl] at hlefts
      have hmem' : ∀ e ∈ activeStep cap A iv, ∀ iv' ∈ rest,
          iv'.isLeftEdge = true → iv'.entity ≠ e := fun e he iv' hiv' hleft =>
        hmem e (hsub e he) iv' (List.mem_cons_of_mem iv hiv') hleft
      have ih := testedRun_ne_and_nodup cap rest (activeStep cap A iv) hA' hmem' hlefts
      constructor
      · intro p hp
        rw [testedRun, if_neg h] at hp
        exact ih.1 p (by simpa using hp)
      · intro k
        cases k with
        | zero => simpa [activeRun] using hA
        | succ k =>
          rw [List.take_succ_cons]
          exact ih.2 k

/-- Claim C10: during every sweep whose left endpoints name pairwise distinct
entities (as the Builder guarantees — one left edge per body), no body is
ever submitted to the narrow-phase Y-test against itself, and the active
list is duplicate-free at every intermediate point of the sweep (so each
body is inserted at most once and tested only against the members present
before its own insertion). -/
theorem C10_no_self_test (cap : ℕ) (σ : Store) (eps : List Interval)
    (hlefts : ((eps.filter (fun iv => iv.isLeftEdge)).map Interval.entity).Nodup) :
    (∀ p ∈ (sweep cap eps (initState σ)).tested, p.1 ≠ p.2) ∧
    (∀ k, ((sweep cap (eps.take k) (initState σ)).active).Nodup) := by
  have h := testedRun_ne_and_nodup cap eps [] List.nodup_nil (by simp) hlefts
  constructor
  · intro p hp
    rw [sweep_tested] at hp
    simp only [initState, List.nil_append] at hp
    exact h.1 p hp
  · intro k
    rw [sweep_active]
    exact h.2 k

/-- Witness for C10 on the concrete four-body stream. -/
theorem C10_no_self_test_witness :
    ((demoEps.filter (fun iv => iv.isLeftEdge)).map Interval.entity).Nodup ∧
    ((∀ p ∈ (sweep 2 demoEps (initState demoStore)).tested, p.1 ≠ p.2) ∧
     (∀ k, ((sweep 2 (demoEps.take k) (initState demoStore)).active).Nodup)) :=
  ⟨by decide, C10_no_self_test 2 demoStore demoEps (by decide)⟩

/-! ## C7: collision flags versus confirmed pairs -/

/-- Reading the store at the written entity. -/
theorem setStore_self (σ : Store) (e : Entity) (b : BodyRec) : setStore σ e b e = b := by
  simp [setStore]

/-- Reading the store elsewhere. -/
theorem setStore_ne (σ : Store) (e e' : Entity) (b : BodyRec) (h : e' ≠ e) :
    setStore σ e b e' = σ e' := by
  simp [setStore, h]

/-- A failed Y-test leaves both bodies and flags unchanged, with no hit. -/
theorem resolvePair_of_not_overlap {r1 r2 : Rect} (v1 : Velocity) (c1 : Bool)
    (v2 : Velocity) (c2 : Bool) (h : ¬ yOverlaps r1 r2) :
    resolvePair r1 v1 c1 r2 v2 c2 = ⟨r1, v1, c1, r2, v2, c2, false⟩ := by
  rw [resolvePair, if_neg h]

/-- A successful Y-test sets both collision flags and reports a hit. -/
theorem resolvePair_of_overlap {r1 r2 : Rect} (v1 : Velocity) (c1 : Bool)
    (v2 : Velocity) (c2 : Bool) (h : yOverlaps r1 r2) :
    (resolvePair r1 v1 c1 r2 v2 c2).c1 = true ∧
    (resolvePair r1 v1 c1 r2 v2 c2).c2 = true ∧
    (resolvePair r1 v1 c1 r2 v2 c2).hit = true := by
  rw [resolvePair, if_pos h]
  split_ifs <;> exact ⟨rfl, rfl, rfl⟩

/-- The narrow phase's trace accumulators are pure prefixes: they influence
neither the store mutation nor which pairs get recorded. -/
theorem narrowPhase_acc (e1 : Entity) :
    ∀ (A : List Entity) (σ : Store) (t c : List (Entity × Entity)),
      narrowPhase e1 A σ t c =
        ((narrowPhase e1 A σ [] []).1,
         t ++ (narrowPhase e1 A σ [] []).2.1,
         c ++ (narrowPhase e1 A σ [] []).2.2)
  | [], σ, t, c => by simp [narrowPhase]
  | e2 :: rest, σ, t, c => by
    simp only [narrowPhase]
    conv_lhs => rw [narrowPhase_acc e1 rest]
    conv_rhs => rw [narrowPhase_acc e1 rest]
    simp

/-- After the narrow phase for entering entity `e1`, an entity's collision
flag is raised exactly when it was already raised or the entity belongs to a
pair confirmed during this inner loop. -/
theorem narrowPhase_flag (e1 : Entity) :
    ∀ (A : List Entity) (σ : Store) (e : Entity),
      ((narrowPhase e1 A σ [] []).1 e).isColliding = true ↔
        ((σ e).isColliding = true ∨
          ∃ p ∈ (narrowPhase e1 A σ [] []).2.2, p.1 = e ∨ p.2 = e)
  | [], σ, e => by simp [narrowPhase]
  | e2 :: rest, σ, e => by
    simp only [narrowPhase]
    rw [narrowPhase_acc e1 rest]
    dsimp only
    rw [narrowPhase_flag e1 rest _ e]
    by_cases hy : yOverlaps (σ e1).rect (σ e2).rect
    · obtain ⟨hc1, hc2, hhit⟩ := resolvePair_of_overlap (σ e1).vel (σ e1).isColliding
        (σ e2).vel (σ e2).isColliding hy
      rw [hhit]
      constructor
      · rintro (hflag | ⟨p, hp, hpe⟩)
        · by_cases he2 : e = e2
          · exact Or.inr ⟨(e1, e2), by simp, Or.inr he2.symm⟩
          · by_cases he1 : e = e1
            · exact Or.inr ⟨(e1, e2), by simp, Or.inl he1.symm⟩
            · rw [setStore_ne _ _ _ _ he2, setStore_ne _ _ _ _ he1] at hflag
              exact Or.inl hflag
        · exact Or.inr ⟨p, by simp [hp], hpe⟩
      · rintro (hflag | ⟨p, hp, hpe⟩)
        · left
          by_cases he2 : e = e2
          · subst he2; rw [setStore_self]; exact hc2
          · rw [setStore_ne _ _ _ _ he2]
            by_cases he1 : e = e1
            · subst he1; rw [setStore_self]; exact hc1
            · rw [setStore_ne _ _ _ _ he1]; exact hflag
        · simp only [if_pos, List.mem_append, List.mem_singleton, List.mem_cons,
            List.not_mem_nil, or_false, false_or] at hp
          rcases hp with h1 | h1
          · left
            subst h1
            have he : e = e1 ∨ e = e2 := by
              rcases hpe with h | h
              · exact Or.inl (by simpa using h.symm)
              · exact Or.inr (by simpa using h.symm)
            rcases he with rfl | rfl
            · by_cases h12 : e = e2
              · rw [h12] at hc2 ⊢
                rw [setStore_self]; exact hc2
              · rw [setStore_ne _ _ _ _ h12, setStore_self]; exact hc1
            · rw [setStore_self]; exact hc2
          · exact Or.inr ⟨p, h1, hpe⟩
    · rw [resolvePair_of_not_overlap _ _ _ _ hy]
      dsimp only
      have hσ : setStore (setStore σ e1 ⟨(σ e1).rect, (σ e1).vel, (σ e1).isColliding⟩) e2
          ⟨(σ e2).rect, (σ e2).vel, (σ e2).isColliding⟩ e = σ e := by
        by_cases ha2 : e = e2
        · subst ha2; rw [setStore_self]
        · rw [setStore_ne _ _ _ _ ha2]
          by_cases ha1 : e = e1
          · subst ha1; rw [setStore_self]
          · rw [setStore_ne _ _ _ _ ha1]
      rw [hσ]
      simp

/-- Sweep-level invariant: after sweeping, an entity's flag is raised iff it
was raised when the sweep started or the entity belongs to a confirmed pair
recorded by the sweep. -/
theorem sweep_flag (cap : ℕ) :
    ∀ (eps : List Interval) (s : SweepState) (base : Entity → Bool),
      (∀ a, (s.store a).isColliding = true ↔
        (base a = true ∨ ∃ p ∈ s.confirmed, p.1 = a ∨ p.2 = a)) →
      ∀ e, ((sweep cap eps s).store e).isColliding = true ↔
        (base e = true ∨ ∃ p ∈ (sweep cap eps s).confirmed, p.1 = e ∨ p.2 = e)
  | [], s, base, hinv, e => hinv e
  | iv :: rest, s, base, hinv, e => by
    show ((sweep cap rest (sweepStep cap s iv)).store e).isColliding = true ↔ _
    refine sweep_flag cap rest (sweepStep cap s iv) base ?_ e
    intro a
    rw [sweepStep]
    by_cases h : iv.isLeftEdge = true
    · rw [if_pos h]
      dsimp only
      rw [narrowPhase_acc]
      dsimp only
      rw [narrowPhase_flag]
      rw [hinv a]
      constructor
      · rintro ((hb | ⟨p, hp, hpe⟩) | ⟨p, hp, hpe⟩)
        · exact Or.inl hb
        · exact Or.inr ⟨p, List.mem_append.mpr (Or.inl hp), hpe⟩
        · exact Or.inr ⟨p, List.mem_append.mpr (Or.inr hp), hpe⟩
      · rintro (hb | ⟨p, hp, hpe⟩)
        · exact Or.inl (Or.inl hb)
        · rcases List.mem_append.mp hp with h1 | h1
          · exact Or.inl (Or.inr ⟨p, h1, hpe⟩)
          · exact Or.inr ⟨p, h1, hpe⟩
    · rw [if_neg h]
      exact hinv a

/-- The first loop of the tick leaves entities it does not visit
untouched. -/
theorem integratePhase_not_mem (w h : ℚ) :
    ∀ (ents : List Entity) (σ : Store) (e : Entity), e ∉ ents →
      (integratePhase w h ents σ).1 e = σ e
  | [], _, _, _ => rfl
  | x :: rest, σ, e, hmem => by
    rw [integratePhase]
    dsimp only
    rw [integratePhase_not_mem w h rest _ e (fun hr => hmem (List.mem_cons_of_mem x hr))]
    exact setStore_ne _ _ _ _ (fun hx => hmem (by rw [hx]; exact List.mem_cons_self x rest))

/-- Every visited entity's collision flag is reset to `false` by the first
loop of the tick, before the sweep runs. -/
theorem integratePhase_flag_false (w h : ℚ) :
    ∀ (ents : List Entity) (σ : Store) (e : Entity), e ∈ ents →
      ((integratePhase w h ents σ).1 e).isColliding = false
  | [], _, e, hmem => absurd hmem (List.not_mem_nil e)
  | x :: rest, σ, e, hmem => by
    rw [integratePhase]
    dsimp only
    by_cases hr : e ∈ rest
    · exact integratePhase_flag_false w h rest _ e hr
    · have hex : e = x := by
        rcases List.mem_cons.mp hmem with h | h
        · exact h
        · exact absurd h hr
      subst hex
      rw [integratePhase_not_mem w h rest _ e hr, setStore_self]
      rfl

/-- Claim C7: each tick every body's collision flag is reset to `false` before
the sweep (whatever it was), and after the tick — integration pass followed
by the sweep over any sorted permutation of the built intervals — a
participating body's flag is `true` iff the body belongs to at least one
pair confirmed by the narrow-phase Y-test during that tick's sweep (both
members of a confirmed pair are flagged, positions being read as they stood
at each test). -/
theorem C7_flag_iff_confirmed (w h : ℚ) (ents : List Entity) (σ : Store)
    (eps : List Interval)
    (hperm : eps.Perm (integratePhase w h ents σ).2)
    (hsort : eps.Pairwise (fun i j => i.xaxis ≤ j.xaxis))
    (e : Entity) (he : e ∈ ents) :
    (((sweep MaxPossibleObject eps
        (initState (integratePhase w h ents σ).1)).store e).isColliding = true) ↔
      ∃ p ∈ (sweep MaxPossibleObject eps
        (initState (integratePhase w h ents σ).1)).confirmed, p.1 = e ∨ p.2 = e := by
  have hs := sweep_flag MaxPossibleObject eps (initState (integratePhase w h ents σ).1)
    (fun a => ((integratePhase w h ents σ).1 a).isColliding)
    (fun a => by simp [initState]) e
  rw [hs, integratePhase_flag_false w h ents σ e he]
  simp

/-- Concrete two-body store for the C7 witness (stale flags deliberately set
`true` to exercise the per-tick reset). -/
def c7Store : Store := fun e =>
  if e = 1 then ⟨⟨0, 0, 4, 4⟩, ⟨0, 0⟩, true⟩ else ⟨⟨4, 0, 4, 4⟩, ⟨0, 0⟩, true⟩

/-- Witness for C7 on a concrete two-body tick. -/
theorem C7_flag_iff_confirmed_witness :
    ((integratePhase 900 800 [1, 2] c7Store).2.Perm
        (integratePhase 900 800 [1, 2] c7Store).2 ∧
     (integratePhase 900 800 [1, 2] c7Store).2.Pairwise
        (fun i j => i.xaxis ≤ j.xaxis) ∧
     (1 : Entity) ∈ [1, 2]) ∧
    ((((sweep MaxPossibleObject (integratePhase 900 800 [1, 2] c7Store).2
        (initState (integratePhase 900 800 [1, 2] c7Store).1)).store 1).isColliding = true) ↔
      ∃ p ∈ (sweep MaxPossibleObject (integratePhase 900 800 [1, 2] c7Store).2
        (initState (integratePhase 900 800 [1, 2] c7Store).1)).confirmed,
        p.1 = 1 ∨ p.2 = 1) :=
  ⟨⟨List.Perm.refl _,
    by norm_num [integratePhase, integrateBody, handleScreenBoundaryCollision,
      setStore, c7Store, List.pairwise_cons],
    by norm_num⟩,
   C7_flag_iff_confirmed 900 800 [1, 2] c7Store _ (List.Perm.refl _)
     (by norm_num [integratePhase, integrateBody, handleScreenBoundaryCollision,
       setStore, c7Store, List.pairwise_cons])
     1 (by norm_num)⟩

/-! ## C1: pruning correctness of the sweep -/

/-- The Interval Set Builder contract (the two appends of src/main.go lines
157-159), as a function of the entity-rectangle pairs present when the
intervals are built. -/
def buildIntervals : List (Entity × Rect) → List Interval
  | [] => []
  | (e, r) :: rest => ⟨r.x, true, e⟩ :: ⟨r.x + r.w, false, e⟩ :: buildIntervals rest

/-- The left endpoint emitted for a body. -/
def leftIv (p : Entity × Rect) : Interval := ⟨p.2.x, true, p.1⟩

/-- The right endpoint emitted for a body. -/
def rightIv (p : Entity × Rect) : Interval := ⟨p.2.x + p.2.w, false, p.1⟩

/-- The built intervals are exactly each body's two endpoints. -/
theorem mem_buildIntervals :
    ∀ (bodies : List (Entity × Rect)) (iv : Interval),
      iv ∈ buildIntervals bodies ↔ ∃ p ∈ bodies, iv = leftIv p ∨ iv = rightIv p
  | [], iv => by simp [buildIntervals]
  | (e, r) :: rest, iv => by
    simp only [buildIntervals, List.mem_cons, mem_buildIntervals rest, leftIv, rightIv,
      exists_eq_or_imp]
    aesop

/-- With pairwise distinct identities the built interval list has no
duplicate entries. -/
theorem nodup_buildIntervals :
    ∀ (bodies : List (Entity × Rect)), (bodies.map Prod.fst).Nodup →
      (buildIntervals bodies).Nodup
  | [], _ => List.nodup_nil
  | (e, r) :: rest, hnd => by
    simp only [List.map_cons, List.nodup_cons] at hnd
    have hent : ∀ iv ∈ buildIntervals rest, iv.entity ≠ e := by
      intro iv hiv hcon
      rcases (mem_buildIntervals rest iv).mp hiv with ⟨p, hp, hpe⟩
      apply hnd.1
      refine List.mem_map.mpr ⟨p, hp, ?_⟩
      rcases hpe with h2 | h2
      · rw [← hcon, h2]; rfl
      · rw [← hcon, h2]; rfl
    refine List.nodup_cons.mpr ⟨?_, List.nodup_cons.mpr ⟨?_, nodup_buildIntervals rest hnd.2⟩⟩
    · intro hmem
      rcases List.mem_cons.mp hmem with h | h
      · exact Bool.noConfusion (congrArg Interval.isLeftEdge h)
      · exact hent _ h rfl
    · intro hmem
      exact hent _ hmem rfl

/-- With distinct identities, a body is determined by its identity. -/
theorem body_eq_of_fst_eq {bodies : List (Entity × Rect)}
    (hnd : (bodies.map Prod.fst).Nodup) {p q : Entity × Rect}
    (hp : p ∈ bodies) (hq : q ∈ bodies) (hfst : p.1 = q.1) : p = q :=
  List.inj_on_of_nodup_map hnd hp hq hfst

/-- Any left endpoint in the stream carrying a body's identity is that
body's left endpoint. -/
theorem left_interval_eq {bodies : List (Entity × Rect)}
    (hnd : (bodies.map Prod.fst).Nodup) {pa : Entity × Rect} (hpa : pa ∈ bodies)
    {iv : Interval} (hiv : iv ∈ buildIntervals bodies)
    (hedge : iv.isLeftEdge = true) (hent : iv.entity = pa.1) : iv = leftIv pa := by
  rcases (mem_buildIntervals bodies iv).mp hiv with ⟨p, hp, hpe⟩
  rcases hpe with h2 | h2
  · have : p = pa := body_eq_of_fst_eq hnd hp hpa (by rw [← hent, h2]; rfl)
    rw [h2, this]
  · rw [h2] at hedge
    exact Bool.noConfusion hedge

/-- Any right endpoint in the stream carrying a body's identity is that
body's right endpoint. -/
theorem right_interval_eq {bodies : List (Entity × Rect)}
    (hnd : (bodies.map Prod.fst).Nodup) {pa : Entity × Rect} (hpa : pa ∈ bodies)
    {iv : Interval} (hiv : iv ∈ buildIntervals bodies)
    (hedge : iv.isLeftEdge = false) (hent : iv.entity = pa.1) : iv = rightIv pa := by
  rcases (mem_buildIntervals bodies iv).mp hiv with ⟨p, hp, hpe⟩
  rcases hpe with h2 | h2
  · rw [h2] at hedge
    exact Bool.noConfusion hedge
  · have : p = pa := body_eq_of_fst_eq hnd hp hpa (by rw [← hent, h2]; rfl)
    rw [h2, this]

/-- Each body's left endpoint occurs exactly once in any permutation of the
built intervals. -/
theorem count_leftIv {bodies : List (Entity × Rect)} {eps : List Interval}
    (hnd : (bodies.map Prod.fst).Nodup) (hperm : eps.Perm (buildIntervals bodies))
    {pa : Entity × Rect} (hpa : pa ∈ bodies) : eps.count (leftIv pa) = 1 := by
  rw [hperm.count_eq]
  exact List.count_eq_one_of_mem (nodup_buildIntervals bodies hnd)
    ((mem_buildIntervals bodies _).mpr ⟨pa, hpa, Or.inl rfl⟩)

/-- Each body's right endpoint occurs exactly once in any permutation of the
built intervals. -/
theorem count_rightIv {bodies : List (Entity × Rect)} {eps : List Interval}
    (hnd : (bodies.map Prod.fst).Nodup) (hperm : eps.Perm (buildIntervals bodies))
    {pa : Entity × Rect} (hpa : pa ∈ bodies) : eps.count (rightIv pa) = 1 := by
  rw [hperm.count_eq]
  exact List.count_eq_one_of_mem (nodup_buildIntervals bodies hnd)
    ((mem_buildIntervals bodies _).mpr ⟨pa, hpa, Or.inr rfl⟩)

/-- Running `activeRun` over an appended single endpoint. -/
theorem activeRun_concat (cap : ℕ) (l : List Interval) (iv : Interval) (A : List Entity) :
    activeRun cap (l ++ [iv]) A = activeStep cap (activeRun cap l A) iv := by
  rw [activeRun, List.foldl_append]
  rfl

/-- Characterisation of the active list along a sorted permutation of the
built intervals: after any prefix, the active list is duplicate-free, all
its members are live identities, and it holds exactly the bodies whose left
endpoint lies in the prefix and whose right endpoint lies in the suffix. -/
theorem activeRun_char (cap : ℕ) (bodies : List (Entity × Rect)) (eps : List Interval)
    (hnd : (bodies.map Prod.fst).Nodup)
    (hw : ∀ p ∈ bodies, 0 < p.2.w)
    (hlen : bodies.length ≤ cap)
    (hperm : eps.Perm (buildIntervals bodies))
    (hsort : eps.Pairwise (fun i j => i.xaxis ≤ j.xaxis)) :
    ∀ pre, ∀ post, eps = pre ++ post →
      (activeRun cap pre []).Nodup ∧
      (∀ a ∈ activeRun cap pre [], a ∈ bodies.map Prod.fst) ∧
      (∀ p ∈ bodies, (p.1 ∈ activeRun cap pre [] ↔ leftIv p ∈ pre ∧ rightIv p ∈ post)) := by
  intro pre
  induction pre using List.reverseRecOn with
  | nil =>
    intro post heq
    exact ⟨List.nodup_nil, by simp [activeRun], fun p hp => by simp [activeRun]⟩
  | append_singleton l iv ih =>
    intro post heq
    have heq' : eps = l ++ iv :: post := by
      rw [heq, List.append_assoc]
      rfl
    obtain ⟨hA, hsub, hchar⟩ := ih (iv :: post) heq'
    rw [activeRun_concat]
    set A := activeRun cap l [] with hAdef
    have hls : ∀ u ∈ l, u.xaxis ≤ iv.xaxis := by
      have hcopy := hsort
      rw [heq', List.pairwise_append] at hcopy
      exact fun u hu => hcopy.2.2 u hu iv (List.mem_cons_self iv post)
    have hps : ∀ v ∈ post, iv.xaxis ≤ v.xaxis := by
      have hcopy := hsort
      rw [heq', List.pairwise_append] at hcopy
      exact fun v hv => (List.pairwise_cons.mp hcopy.2.1).1 v hv
    have hivmem : iv ∈ buildIntervals bodies := by
      rw [← hperm.mem_iff, heq']
      exact List.mem_append.mpr (Or.inr (List.mem_cons_self iv post))
    by_cases hedge : iv.isLeftEdge = true
    · rcases (mem_buildIntervals bodies iv).mp hivmem with ⟨pIv, hpIv, hcase⟩
      have hivL : iv = leftIv pIv := by
        rcases hcase with h2 | h2
        · exact h2
        · rw [h2] at hedge; exact Bool.noConfusion hedge
      have hent : iv.entity = pIv.1 := by rw [hivL]; rfl
      have hLnotl : leftIv pIv ∉ l := by
        intro hin
        have hcnt := count_leftIv hnd hperm hpIv
        rw [heq', List.count_append, List.count_cons] at hcnt
        simp only [hivL, beq_self_eq_true, if_true] at hcnt
        have h0 : List.count (leftIv pIv) l = 0 := by omega
        exact (List.count_eq_zero.mp h0) hin
      have hanotA : pIv.1 ∉ A := fun hin => hLnotl ((hchar pIv hpIv).mp hin).1
      have hlt : A.length < cap := by
        have hidmem : pIv.1 ∈ bodies.map Prod.fst := List.mem_map.mpr ⟨pIv, hpIv, rfl⟩
        have hconsnd : (pIv.1 :: A).Nodup := List.nodup_cons.mpr ⟨hanotA, hA⟩
        have hconssub : (pIv.1 :: A) ⊆ bodies.map Prod.fst := by
          intro a ha
          rcases List.mem_cons.mp ha with h1 | h1
          · rw [h1]; exact hidmem
          · exact hsub a h1
        have hle := (hconsnd.subperm hconssub).length_le
        rw [List.length_map] at hle
        simp only [List.length_cons] at hle
        omega
      have hstep : activeStep cap A iv = A ++ [iv.entity] := by
        rw [activeStep, if_pos hedge, if_pos hlt]
      rw [hstep, hent]
      refine ⟨?_, ?_, ?_⟩
      · exact hA.append (List.nodup_cons.mpr ⟨List.not_mem_nil _, List.nodup_nil⟩)
          (List.disjoint_singleton.mpr hanotA)
      · intro a ha
        rcases List.mem_append.mp ha with h1 | h1
        · exact hsub a h1
        · rw [List.mem_singleton.mp h1]
          exact List.mem_map.mpr ⟨pIv, hpIv, rfl⟩
      · intro q hq
        by_cases hq1 : q.1 = pIv.1
        · have hqp : q = pIv := body_eq_of_fst_eq hnd hq hpIv hq1
          subst hqp
          constructor
          · intro _
            refine ⟨List.mem_append.mpr (Or.inr (by rw [hivL]; exact List.mem_singleton.mpr rfl)), ?_⟩
            have hrmem : rightIv q ∈ eps := by
              rw [hperm.mem_iff]
              exact (mem_buildIntervals bodies _).mpr ⟨q, hq, Or.inr rfl⟩
            have hrne : rightIv q ≠ iv := by
              intro hcon
              rw [hivL] at hcon
              exact Bool.noConfusion (congrArg Interval.isLeftEdge hcon)
            have hrnotl : rightIv q ∉ l := by
              intro hin
              have hle := hls _ hin
              rw [hivL] at hle
              have hwq := hw q hq
              simp only [rightIv, leftIv] at hle
              linarith
            rw [heq'] at hrmem
            rcases List.mem_append.mp hrmem with h1 | h1
            · exact absurd h1 hrnotl
            · rcases List.mem_cons.mp h1 with h2 | h2
              · exact absurd h2 hrne
              · exact h2
          · intro _
            exact List.mem_append.mpr (Or.inr (List.mem_singleton.mpr rfl))
        · have hlq : leftIv q ≠ iv := fun hcon => hq1 (by rw [← hent, ← hcon]; rfl)
          have hrq : rightIv q ≠ iv := fun hcon => hq1 (by rw [← hent, ← hcon]; rfl)
          constructor
          · intro hin
            rcases List.mem_append.mp hin with h1 | h1
            · obtain ⟨hl2, hr2⟩ := (hchar q hq).mp h1
              refine ⟨List.mem_append.mpr (Or.inl hl2), ?_⟩
              rcases List.mem_cons.mp hr2 with h2 | h2
              · exact absurd h2 hrq
              · exact h2
            · exact absurd (List.mem_singleton.mp h1) hq1
          · rintro ⟨hl2, hr2⟩
            have hl3 : leftIv q ∈ l := by
              rcases List.mem_append.mp hl2 with h1 | h1
              · exact h1
              · exact absurd (List.mem_singleton.mp h1) hlq
            exact List.mem_append.mpr
              (Or.inl ((hchar q hq).mpr ⟨hl3, List.mem_cons_of_mem iv hr2⟩))
    · have hedgeF : iv.isLeftEdge = false := by
        cases hiv : iv.isLeftEdge
        · rfl
        · exact absurd hiv hedge
      rcases (mem_buildIntervals bodies iv).mp hivmem with ⟨pIv, hpIv, hcase⟩
      have hivR : iv = rightIv pIv := by
        rcases hcase with h2 | h2
        · rw [h2] at hedgeF; exact Bool.noConfusion hedgeF
        · exact h2
      have hent : iv.entity = pIv.1 := by rw [hivR]; rfl
      have hLl : leftIv pIv ∈ l := by
        have hlmem : leftIv pIv ∈ eps := by
          rw [hperm.mem_iff]
          exact (mem_buildIntervals bodies _).mpr ⟨pIv, hpIv, Or.inl rfl⟩
        have hlne : leftIv pIv ≠ iv := by
          intro hcon
          rw [hivR] at hcon
          exact Bool.noConfusion (congrArg Interval.isLeftEdge hcon)
        have hlnotpost : leftIv pIv ∉ post := by
          intro hin
          have hle := hps _ hin
          rw [hivR] at hle
          have hwq := hw pIv hpIv
          simp only [rightIv, leftIv] at hle
          linarith
        rw [heq'] at hlmem
        rcases List.mem_append.mp hlmem with h1 | h1
        · exact h1
        · rcases List.mem_cons.mp h1 with h2 | h2
          · exact absurd h2 hlne
          · exact absurd h2 hlnotpost
      have haA : pIv.1 ∈ A :=
        (hchar pIv hpIv).mpr ⟨hLl, by rw [← hivR]; exact List.mem_cons_self iv post⟩
      have hstep : activeStep cap A iv = swapRemove A iv.entity := by
        rw [activeStep, if_neg (by simp [hedgeF])]
      rw [hstep, hent]
      refine ⟨swapRemove_nodup _ hA, ?_, ?_⟩
      · intro a ha
        exact hsub a ((mem_swapRemove hA).mp ha).2
      · intro q hq
        by_cases hq1 : q.1 = pIv.1
        · have hqp : q = pIv := body_eq_of_fst_eq hnd hq hpIv hq1
          subst hqp
          constructor
          · intro hin
            exact absurd rfl ((mem_swapRemove hA).mp hin).1
          · rintro ⟨-, hr2⟩
            exfalso
            have hcnt := count_rightIv hnd hperm hq
            rw [heq', List.count_append, List.count_cons] at hcnt
            simp only [hivR, beq_self_eq_true, if_true] at hcnt
            have h0 : List.count (rightIv q) post = 0 := by omega
            exact (List.count_eq_zero.mp h0) hr2
        · have hlq : leftIv q ≠ iv := fun hcon => hq1 (by rw [← hent, ← hcon]; rfl)
          have hrq : rightIv q ≠ iv := fun hcon => hq1 (by rw [← hent, ← hcon]; rfl)
          rw [mem_swapRemove hA]
          constructor
          · rintro ⟨hne, hin⟩
            obtain ⟨hl2, hr2⟩ := (hchar q hq).mp hin
            refine ⟨List.mem_append.mpr (Or.inl hl2), ?_⟩
            rcases List.mem_cons.mp hr2 with h2 | h2
            · exact absurd h2 hrq
            · exact h2
          · rintro ⟨hl2, hr2⟩
            refine ⟨hq1, ?_⟩
            have hl3 : leftIv q ∈ l := by
              rcases List.mem_append.mp hl2 with h1 | h1
              · exact h1
              · exact absurd (List.mem_singleton.mp h1) hlq
            exact (hchar q hq).mpr ⟨hl3, List.mem_cons_of_mem iv hr2⟩

/-- Splitting the submitted-pair trace over an append. -/
theorem testedRun_append (cap : ℕ) :
    ∀ (l1 l2 : List Interval) (A : List Entity),
      testedRun cap (l1 ++ l2) A = testedRun cap l1 A ++ testedRun cap l2 (activeRun cap l1 A)
  | [], l2, A => by simp [testedRun, activeRun]
  | iv :: rest, l2, A => by
    show (if iv.isLeftEdge then A.map (fun e2 => (iv.entity, e2)) else []) ++
        testedRun cap (rest ++ l2) (activeStep cap A iv) =
      ((if iv.isLeftEdge then A.map (fun e2 => (iv.entity, e2)) else []) ++
        testedRun cap rest (activeStep cap A iv)) ++
        testedRun cap l2 (activeRun cap rest (activeStep cap A iv))
    rw [testedRun_append cap rest l2, List.append_assoc]

/-- A segment containing no left endpoint for `a` contributes no submitted
pair whose first component is `a`. -/
theorem count_testedRun_zero (cap : ℕ) (a b : Entity) :
    ∀ (l : List Interval) (A : List Entity),
      (∀ iv ∈ l, iv.isLeftEdge = true → iv.entity ≠ a) →
      (testedRun cap l A).count (a, b) = 0
  | [], _, _ => by simp [testedRun]
  | iv :: rest, A, hno => by
    rw [testedRun, List.count_append]
    rw [count_testedRun_zero cap a b rest (activeStep cap A iv)
      (fun u hu => hno u (List.mem_cons_of_mem iv hu))]
    by_cases h : iv.isLeftEdge = true
    · rw [if_pos h]
      have hnm : (a, b) ∉ A.map (fun e2 => (iv.entity, e2)) := by
        intro hmem
        rcases List.mem_map.mp hmem with ⟨e2, _, heq2⟩
        exact hno iv (List.mem_cons_self iv rest) h (congrArg Prod.fst heq2)
      rw [List.count_eq_zero.mpr hnm]
    · rw [if_neg h]
      simp

/-- In a duplicate-free list a member is counted exactly once. -/
theorem count_one_of_nodup_mem {α : Type*} [BEq α] [LawfulBEq α] :
    ∀ (l : List α) (a : α), l.Nodup → a ∈ l → l.count a = 1
  | [], a, _, h => absurd h (List.not_mem_nil a)
  | x :: xs, a, hnd, h => by
    obtain ⟨hx, hxs⟩ := List.nodup_cons.mp hnd
    rw [List.count_cons]
    by_cases hxa : x = a
    · subst hxa
      rw [List.count_eq_zero.mpr hx]
      simp
    · have hmem : a ∈ xs := by
        rcases List.mem_cons.mp h with h1 | h1
        · exact absurd h1.symm hxa
        · exact h1
      rw [count_one_of_nodup_mem xs a hxs hmem]
      simp [hxa]

/-- Counting a pair in the block submitted at a left endpoint. -/
theorem count_map_pair (a b : Entity) :
    ∀ (A : List Entity), (A.map (fun e2 => (a, e2))).count (a, b) = A.count b
  | [] => rfl
  | x :: xs => by
    rw [List.map_cons, List.count_cons, List.count_cons, count_map_pair a b xs]
    by_cases h : x = b
    · subst h; simp
    · simp [h, Prod.ext_iff]

/-- Helper for C1, overlapping case with `pb`'s left endpoint first: if the
stream decomposes as `s1 ++ leftIv pb :: (s2 ++ leftIv pa :: t)` and `pa`'s
interval starts before `pb`'s ends, then the unordered pair is submitted
exactly once — at `pa`'s left endpoint, against the still-active `pb`. -/
theorem count_pair_of_between (cap : ℕ) (bodies : List (Entity × Rect))
    (pa pb : Entity × Rect) (s1 s2 t : List Interval)
    (hnd : (bodies.map Prod.fst).Nodup)
    (hw : ∀ p ∈ bodies, 0 < p.2.w)
    (hlen : bodies.length ≤ cap)
    (hperm : (s1 ++ leftIv pb :: (s2 ++ leftIv pa :: t)).Perm (buildIntervals bodies))
    (hsort : (s1 ++ leftIv pb :: (s2 ++ leftIv pa :: t)).Pairwise
      (fun i j => i.xaxis ≤ j.xaxis))
    (hpa : pa ∈ bodies) (hpb : pb ∈ bodies) (hab : pa.1 ≠ pb.1)
    (hov : pa.2.x < pb.2.x + pb.2.w) :
    (testedRun cap (s1 ++ leftIv pb :: (s2 ++ leftIv pa :: t)) []).count (pa.1, pb.1) = 1 ∧
    (testedRun cap (s1 ++ leftIv pb :: (s2 ++ leftIv pa :: t)) []).count (pb.1, pa.1) = 0 := by
  have hepsnd : (s1 ++ leftIv pb :: (s2 ++ leftIv pa :: t)).Nodup :=
    hperm.nodup_iff.mpr (nodup_buildIntervals bodies hnd)
  rw [List.nodup_append] at hepsnd
  obtain ⟨hs1nd, hmid, hdisj1⟩ := hepsnd
  obtain ⟨hLbnot, hmid2⟩ := List.nodup_cons.mp hmid
  have hmid2' := hmid2
  rw [List.nodup_append] at hmid2'
  obtain ⟨hs2nd, hmid3, hdisj2⟩ := hmid2'
  have hLanott : leftIv pa ∉ t := (List.nodup_cons.mp hmid3).1
  have hLanots2 : leftIv pa ∉ s2 := fun hin =>
    hdisj2 hin (List.mem_cons_self _ _)
  have hLanots1 : leftIv pa ∉ s1 := fun hin =>
    hdisj1 hin (List.mem_cons_of_mem _ (List.mem_append.mpr
      (Or.inr (List.mem_cons_self _ _))))
  have hLbnots1 : leftIv pb ∉ s1 := fun hin =>
    hdisj1 hin (List.mem_cons_self _ _)
  have hLaneLb : leftIv pa ≠ leftIv pb := fun hcon =>
    hab (congrArg Interval.entity hcon)
  have hnoLa : ∀ (seg : List Interval), leftIv pa ∉ seg →
      (∀ iv ∈ seg, iv ∈ s1 ++ leftIv pb :: (s2 ++ leftIv pa :: t)) →
      ∀ iv ∈ seg, iv.isLeftEdge = true → iv.entity ≠ pa.1 := by
    intro seg hnot hsegsub iv hiv hedge hcon
    have hivb : iv ∈ buildIntervals bodies := hperm.mem_iff.mp (hsegsub iv hiv)
    have hiveq : iv = leftIv pa := left_interval_eq hnd hpa hivb hedge hcon
    rw [hiveq] at hiv
    exact hnot hiv
  have hnoLb : ∀ (seg : List Interval), leftIv pb ∉ seg →
      (∀ iv ∈ seg, iv ∈ s1 ++ leftIv pb :: (s2 ++ leftIv pa :: t)) →
      ∀ iv ∈ seg, iv.isLeftEdge = true → iv.entity ≠ pb.1 := by
    intro seg hnot hsegsub iv hiv hedge hcon
    have hivb : iv ∈ buildIntervals bodies := hperm.mem_iff.mp (hsegsub iv hiv)
    have hiveq : iv = leftIv pb := left_interval_eq hnd hpb hivb hedge hcon
    rw [hiveq] at hiv
    exact hnot hiv
  have hsplit : (s1 ++ leftIv pb :: s2) ++ (leftIv pa :: t) =
      s1 ++ leftIv pb :: (s2 ++ leftIv pa :: t) := by
    rw [List.append_assoc]
    rfl
  constructor
  · rw [← hsplit, testedRun_append, List.count_append, testedRun]
    have hP0 : (testedRun cap (s1 ++ leftIv pb :: s2) []).count (pa.1, pb.1) = 0 := by
      refine count_testedRun_zero cap pa.1 pb.1 _ _ (hnoLa (s1 ++ leftIv pb :: s2) ?_ ?_)
      · intro hin
        rcases List.mem_append.mp hin with h1 | h1
        · exact hLanots1 h1
        · rcases List.mem_cons.mp h1 with h2 | h2
          · exact hLaneLb h2
          · exact hLanots2 h2
      · intro u hu
        rw [← hsplit]
        exact List.mem_append.mpr (Or.inl hu)
    rw [hP0, if_pos (show (leftIv pa).isLeftEdge = true from rfl)]
    have hchar := activeRun_char cap bodies _ hnd hw hlen
      (hsplit ▸ hperm) (hsplit ▸ hsort)
      (s1 ++ leftIv pb :: s2) (leftIv pa :: t) rfl
    obtain ⟨hAnd, _, hmemA⟩ := hchar
    have hin : pb.1 ∈ activeRun cap (s1 ++ leftIv pb :: s2) [] := by
      rw [hmemA pb hpb]
      refine ⟨List.mem_append.mpr (Or.inr (List.mem_cons_self _ _)), ?_⟩
      have hrmem : rightIv pb ∈ (s1 ++ leftIv pb :: s2) ++ (leftIv pa :: t) := by
        rw [hsplit, hperm.mem_iff]
        exact (mem_buildIntervals bodies _).mpr ⟨pb, hpb, Or.inr rfl⟩
      have hsort2 := hsplit ▸ hsort
      rw [List.pairwise_append] at hsort2
      rcases List.mem_append.mp hrmem with h1 | h1
      · exfalso
        have hle := hsort2.2.2 _ h1 (leftIv pa) (List.mem_cons_self _ _)
        simp only [rightIv, leftIv] at hle
        linarith
      · exact h1
    rw [show (leftIv pa).entity = pa.1 from rfl,
      List.count_append, count_map_pair, count_one_of_nodup_mem _ _ hAnd hin,
      count_testedRun_zero cap pa.1 pb.1 t _
        (hnoLa t hLanott (fun u hu => List.mem_append.mpr (Or.inr
          (List.mem_cons_of_mem _ (List.mem_append.mpr (Or.inr
            (List.mem_cons_of_mem _ hu)))))))]
  · rw [testedRun_append, List.count_append, testedRun]
    have hP0 : (testedRun cap s1 []).count (pb.1, pa.1) = 0 :=
      count_testedRun_zero cap pb.1 pa.1 s1 _
        (hnoLb s1 hLbnots1 (fun u hu => List.mem_append.mpr (Or.inl hu)))
    rw [hP0, if_pos (show (leftIv pb).isLeftEdge = true from rfl)]
    have hchar := activeRun_char cap bodies _ hnd hw hlen hperm hsort
      s1 (leftIv pb :: (s2 ++ leftIv pa :: t)) rfl
    obtain ⟨hAnd, _, hmemA⟩ := hchar
    have hnin : pa.1 ∉ activeRun cap s1 [] := by
      rw [hmemA pa hpa]
      rintro ⟨h1, -⟩
      exact hLanots1 h1
    rw [show (leftIv pb).entity = pb.1 from rfl,
      List.count_append, count_map_pair, List.count_eq_zero.mpr hnin,
      count_testedRun_zero cap pb.1 pa.1 _ _
        (hnoLb (s2 ++ leftIv pa :: t) hLbnot
          (fun u hu => List.mem_append.mpr (Or.inr (List.mem_cons_of_mem _ hu))))]

/-- Sorted streams dominate across a split point. -/
theorem sorted_split {eps s t : List Interval} {iv : Interval}
    (hsort : eps.Pairwise (fun i j => i.xaxis ≤ j.xaxis)) (heq : eps = s ++ iv :: t) :
    (∀ u ∈ s, u.xaxis ≤ iv.xaxis) ∧ (∀ v ∈ t, iv.xaxis ≤ v.xaxis) := by
  rw [heq, List.pairwise_append] at hsort
  exact ⟨fun u hu => hsort.2.2 u hu iv (List.mem_cons_self iv t),
    fun v hv => (List.pairwise_cons.mp hsort.2.1).1 v hv⟩

/-- A segment avoiding a body's left endpoint contains no left endpoint
carrying that body's identity. -/
theorem no_left_entity {bodies : List (Entity × Rect)} {eps : List Interval}
    (hnd : (bodies.map Prod.fst).Nodup) (hperm : eps.Perm (buildIntervals bodies))
    {pa : Entity × Rect} (hpa : pa ∈ bodies) {seg : List Interval}
    (hnot : leftIv pa ∉ seg) (hsub : ∀ iv ∈ seg, iv ∈ eps) :
    ∀ iv ∈ seg, iv.isLeftEdge = true → iv.entity ≠ pa.1 := by
  intro iv hiv hedge hcon
  have hivb : iv ∈ buildIntervals bodies := hperm.mem_iff.mp (hsub iv hiv)
  have hiveq : iv = leftIv pa := left_interval_eq hnd hpa hivb hedge hcon
  rw [hiveq] at hiv
  exact hnot hiv

/-- Helper for C1, gapped case: if `pa`'s X-interval ends strictly before
`pb`'s begins, the pair is never submitted to the narrow phase in either
order. -/
theorem count_pair_of_gap (cap : ℕ) (bodies : List (Entity × Rect))
    (pa pb : Entity × Rect) (eps : List Interval)
    (hnd : (bodies.map Prod.fst).Nodup)
    (hw : ∀ p ∈ bodies, 0 < p.2.w)
    (hlen : bodies.length ≤ cap)
    (hperm : eps.Perm (buildIntervals bodies))
    (hsort : List.Pairwise (fun i j => i.xaxis ≤ j.xaxis) eps)
    (hpa : pa ∈ bodies) (hpb : pb ∈ bodies) (hab : pa.1 ≠ pb.1)
    (hgap : pa.2.x + pa.2.w < pb.2.x) :
    (testedRun cap eps []).count (pa.1, pb.1) = 0 ∧
    (testedRun cap eps []).count (pb.1, pa.1) = 0 := by
  have hepsnd : eps.Nodup := hperm.nodup_iff.mpr (nodup_buildIntervals bodies hnd)
  constructor
  · have hLa : leftIv pa ∈ eps := by
      rw [hperm.mem_iff]
      exact (mem_buildIntervals bodies _).mpr ⟨pa, hpa, Or.inl rfl⟩
    obtain ⟨sa, ta, heqa⟩ := List.append_of_mem hLa
    have hnds := hepsnd
    rw [heqa, List.nodup_append] at hnds
    have hLanots : leftIv pa ∉ sa := fun hin =>
      hnds.2.2 hin (List.mem_cons_self _ _)
    have hLanott : leftIv pa ∉ ta := (List.nodup_cons.mp hnds.2.1).1
    rw [heqa, testedRun_append, List.count_append, testedRun,
      if_pos (show (leftIv pa).isLeftEdge = true from rfl),
      show (leftIv pa).entity = pa.1 from rfl, List.count_append]
    have h1 : (testedRun cap sa []).count (pa.1, pb.1) = 0 :=
      count_testedRun_zero cap pa.1 pb.1 sa _
        (no_left_entity hnd hperm hpa hLanots
          (fun u hu => by rw [heqa]; exact List.mem_append.mpr (Or.inl hu)))
    have h3 : (testedRun cap ta (activeStep cap (activeRun cap sa []) (leftIv pa))).count (pa.1, pb.1) = 0 :=
      count_testedRun_zero cap pa.1 pb.1 ta _
        (no_left_entity hnd hperm hpa hLanott
          (fun u hu => by
            rw [heqa]
            exact List.mem_append.mpr (Or.inr (List.mem_cons_of_mem _ hu))))
    have h2 : (activeRun cap sa []).count pb.1 = 0 := by
      obtain ⟨hAnd, _, hmemA⟩ := activeRun_char cap bodies eps hnd hw hlen hperm hsort
        sa (leftIv pa :: ta) heqa
      refine List.count_eq_zero.mpr ?_
      intro hin
      obtain ⟨hl2, -⟩ := (hmemA pb hpb).mp hin
      have hle := (sorted_split hsort heqa).1 _ hl2
      simp only [leftIv] at hle
      have hwa := hw pa hpa
      linarith
    rw [h1, h3, count_map_pair, h2]
  · have hLb : leftIv pb ∈ eps := by
      rw [hperm.mem_iff]
      exact (mem_buildIntervals bodies _).mpr ⟨pb, hpb, Or.inl rfl⟩
    obtain ⟨sb, tb, heqb⟩ := List.append_of_mem hLb
    have hnds := hepsnd
    rw [heqb, List.nodup_append] at hnds
    have hLbnots : leftIv pb ∉ sb := fun hin =>
      hnds.2.2 hin (List.mem_cons_self _ _)
    have hLbnott : leftIv pb ∉ tb := (List.nodup_cons.mp hnds.2.1).1
    rw [heqb, testedRun_append, List.count_append, testedRun,
      if_pos (show (leftIv pb).isLeftEdge = true from rfl),
      show (leftIv pb).entity = pb.1 from rfl, List.count_append]
    have h1 : (testedRun cap sb []).count (pb.1, pa.1) = 0 :=
      count_testedRun_zero cap pb.1 pa.1 sb _
        (no_left_entity hnd hperm hpb hLbnots
          (fun u hu => by rw [heqb]; exact List.mem_append.mpr (Or.inl hu)))
    have h3 : (testedRun cap tb (activeStep cap (activeRun cap sb []) (leftIv pb))).count (pb.1, pa.1) = 0 :=
      count_testedRun_zero cap pb.1 pa.1 tb _
        (no_left_entity hnd hperm hpb hLbnott
          (fun u hu => by
            rw [heqb]
            exact List.mem_append.mpr (Or.inr (List.mem_cons_of_mem _ hu))))
    have h2 : (activeRun cap sb []).count pa.1 = 0 := by
      obtain ⟨hAnd, _, hmemA⟩ := activeRun_char cap bodies eps hnd hw hlen hperm hsort
        sb (leftIv pb :: tb) heqb
      refine List.count_eq_zero.mpr ?_
      intro hin
      obtain ⟨-, hr2⟩ := (hmemA pa hpa).mp hin
      rcases List.mem_cons.mp hr2 with h4 | h4
      · exact Bool.noConfusion (congrArg Interval.isLeftEdge h4)
      · have hle := (sorted_split hsort heqb).2 _ h4
        simp only [leftIv, rightIv] at hle
        linarith
    rw [h1, h3, count_map_pair, h2]

/-- The submitted-pair trace, characterised by X-interval geometry: along any
sorted permutation of the built intervals, a pair of bodies with strictly
overlapping X-intervals is submitted to the narrow phase exactly once, and a
pair whose X-intervals are separated by a positive gap is never submitted. -/
theorem testedRun_count_char (cap : ℕ) (bodies : List (Entity × Rect))
    (eps : List Interval)
    (hnd : (bodies.map Prod.fst).Nodup)
    (hw : ∀ p ∈ bodies, 0 < p.2.w)
    (hlen : bodies.length ≤ cap)
    (hperm : eps.Perm (buildIntervals bodies))
    (hsort : List.Pairwise (fun i j => i.xaxis ≤ j.xaxis) eps)
    (pa pb : Entity × Rect) (hpa : pa ∈ bodies) (hpb : pb ∈ bodies)
    (hab : pa.1 ≠ pb.1) :
    (pa.2.x < pb.2.x + pb.2.w ∧ pb.2.x < pa.2.x + pa.2.w →
      (testedRun cap eps []).count (pa.1, pb.1) +
        (testedRun cap eps []).count (pb.1, pa.1) = 1) ∧
    (pa.2.x + pa.2.w < pb.2.x ∨ pb.2.x + pb.2.w < pa.2.x →
      (testedRun cap eps []).count (pa.1, pb.1) +
        (testedRun cap eps []).count (pb.1, pa.1) = 0) := by
  have hepsnd : eps.Nodup := hperm.nodup_iff.mpr (nodup_buildIntervals bodies hnd)
  constructor
  · rintro ⟨hov1, hov2⟩
    have hLa : leftIv pa ∈ eps := by
      rw [hperm.mem_iff]
      exact (mem_buildIntervals bodies _).mpr ⟨pa, hpa, Or.inl rfl⟩
    obtain ⟨s, t, heqa⟩ := List.append_of_mem hLa
    have hLb : leftIv pb ∈ eps := by
      rw [hperm.mem_iff]
      exact (mem_buildIntervals bodies _).mpr ⟨pb, hpb, Or.inl rfl⟩
    have hLbne : leftIv pb ≠ leftIv pa := fun hcon =>
      hab (congrArg Interval.entity hcon).symm
    rw [heqa] at hLb
    rcases List.mem_append.mp hLb with hcase | hcase
    · -- pb's left endpoint strictly earlier
      obtain ⟨s1, s2, heqs⟩ := List.append_of_mem hcase
      have heq2 : eps = s1 ++ leftIv pb :: (s2 ++ leftIv pa :: t) := by
        rw [heqa, heqs, List.append_assoc]
        rfl
      rw [heq2]
      have hres := count_pair_of_between cap bodies pa pb s1 s2 t hnd hw hlen
        (heq2 ▸ hperm) (heq2 ▸ hsort) hpa hpb hab hov1
      rw [hres.1, hres.2]
    · rcases List.mem_cons.mp hcase with hcase2 | hcase2
      · exact absurd hcase2 hLbne
      · -- pa's left endpoint strictly earlier
        obtain ⟨t1, t2, heqt⟩ := List.append_of_mem hcase2
        have heq2 : eps = s ++ leftIv pa :: (t1 ++ leftIv pb :: t2) := by
          rw [heqa, heqt]
        rw [heq2]
        have hres := count_pair_of_between cap bodies pb pa s t1 t2 hnd hw hlen
          (heq2 ▸ hperm) (heq2 ▸ hsort) hpb hpa (fun hcon => hab hcon.symm) hov2
        rw [hres.1, hres.2]
  · rintro (hgap | hgap)
    · have hres := count_pair_of_gap cap bodies pa pb eps hnd hw hlen hperm hsort
        hpa hpb hab hgap
      rw [hres.1, hres.2]
    · have hres := count_pair_of_gap cap bodies pb pa eps hnd hw hlen hperm hsort
        hpb hpa (fun hcon => hab hcon.symm) hgap
      rw [hres.1, hres.2]

/-- For duplicate-free query orders, the tick's first loop gives each
visited entity exactly its own integrated record. -/
theorem integratePhase_mem (w h : ℚ) :
    ∀ (ents : List Entity) (σ : Store) (e : Entity), ents.Nodup → e ∈ ents →
      (integratePhase w h ents σ).1 e = integrateBody w h (σ e)
  | [], _, e, _, hmem => absurd hmem (List.not_mem_nil e)
  | x :: rest, σ, e, hnd, hmem => by
    rw [integratePhase]
    dsimp only
    obtain ⟨hx, hrest⟩ := List.nodup_cons.mp hnd
    rcases List.mem_cons.mp hmem with hex | hr
    · subst hex
      rw [integratePhase_not_mem w h rest _ e hx, setStore_self]
    · have hne : e ≠ x := fun hcon => hx (by rw [← hcon]; exact hr)
      rw [integratePhase_mem w h rest _ e hrest hr, setStore_ne _ _ _ _ hne]

/-- Integration and clamping never change a rectangle's width. -/
theorem integrateBody_w (w h : ℚ) (b : BodyRec) :
    (integrateBody w h b).rect.w = b.rect.w := rfl

/-- The interval list built by the tick's first loop is exactly the Builder
contract applied to the integrated bodies. -/
theorem integratePhase_intervals (w h : ℚ) :
    ∀ (ents : List Entity) (σ : Store), ents.Nodup →
      (integratePhase w h ents σ).2 =
        buildIntervals (ents.map (fun e => (e, ((integratePhase w h ents σ).1 e).rect)))
  | [], _, _ => rfl
  | x :: rest, σ, hnd => by
    obtain ⟨hx, hrest⟩ := List.nodup_cons.mp hnd
    rw [integratePhase]
    dsimp only
    simp only [List.map_cons, buildIntervals]
    have hx1 : (integratePhase w h rest (setStore σ x (integrateBody w h (σ x)))).1 x
        = integrateBody w h (σ x) := by
      rw [integratePhase_not_mem w h rest _ x hx, setStore_self]
    rw [hx1, integratePhase_intervals w h rest _ hrest]

/-- Claim C1 (amended): consider a tick — motion integration and clamping over
a duplicate-free entity list of at most `MaxPossibleObject` bodies of
positive width, then the sweep over any non-decreasing permutation of the
built intervals.  A pair of distinct bodies whose X-intervals
`[x, x+w]` (as they stood when the intervals were built) *strictly* overlap
is submitted to the narrow-phase Y-test exactly once, and a pair whose
X-intervals are separated by a positive gap is never submitted.  (Pairs
whose intervals touch exactly at an endpoint are not covered: whether they
are tested depends on the sorter's unspecified tie order between a Right
and a Left endpoint at equal coordinates — see the counterexample.) -/
theorem C1_pruning (w h : ℚ) (ents : List Entity) (σ : Store) (eps : List Interval)
    (hnd : ents.Nodup) (hlen : ents.length ≤ MaxPossibleObject)
    (hw : ∀ e ∈ ents, 0 < (σ e).rect.w)
    (hperm : eps.Perm (integratePhase w h ents σ).2)
    (hsort : eps.Pairwise (fun i j => i.xaxis ≤ j.xaxis))
    (a b : Entity) (ha : a ∈ ents) (hb : b ∈ ents) (hab : a ≠ b) :
    ((((integratePhase w h ents σ).1 a).rect.x <
        ((integratePhase w h ents σ).1 b).rect.x + ((integratePhase w h ents σ).1 b).rect.w ∧
      ((integratePhase w h ents σ).1 b).rect.x <
        ((integratePhase w h ents σ).1 a).rect.x + ((integratePhase w h ents σ).1 a).rect.w) →
      ((sweep MaxPossibleObject eps (initState (integratePhase w h ents σ).1)).tested.count (a, b) +
       (sweep MaxPossibleObject eps (initState (integratePhase w h ents σ).1)).tested.count (b, a)) = 1) ∧
    ((((integratePhase w h ents σ).1 a).rect.x + ((integratePhase w h ents σ).1 a).rect.w <
        ((integratePhase w h ents σ).1 b).rect.x ∨
      ((integratePhase w h ents σ).1 b).rect.x + ((integratePhase w h ents σ).1 b).rect.w <
        ((integratePhase w h ents σ).1 a).rect.x) →
      ((sweep MaxPossibleObject eps (initState (integratePhase w h ents σ).1)).tested.count (a, b) +
       (sweep MaxPossibleObject eps (initState (integratePhase w h ents σ).1)).tested.count (b, a)) = 0) := by
  have htest : (sweep MaxPossibleObject eps (initState (integratePhase w h ents σ).1)).tested
      = testedRun MaxPossibleObject eps [] := by
    rw [sweep_tested]
    simp [initState]
  rw [htest]
  set bodies := ents.map (fun e => (e, ((integratePhase w h ents σ).1 e).rect)) with hbodies
  have hndb : (bodies.map Prod.fst).Nodup := by
    have hmapeq : bodies.map Prod.fst = ents := by
      rw [hbodies, List.map_map,
        show (Prod.fst ∘ fun e : Entity => (e, ((integratePhase w h ents σ).1 e).rect)) = id
          from rfl, List.map_id]
    rw [hmapeq]
    exact hnd
  have hwb : ∀ p ∈ bodies, 0 < p.2.w := by
    intro p hp
    rw [hbodies] at hp
    rcases List.mem_map.mp hp with ⟨e, he, rfl⟩
    have := integratePhase_mem w h ents σ e hnd he
    dsimp only
    rw [this, integrateBody_w]
    exact hw e he
  have hlenb : bodies.length ≤ MaxPossibleObject := by
    rw [hbodies, List.length_map]
    exact hlen
  have hpermb : eps.Perm (buildIntervals bodies) := by
    rw [hbodies, ← integratePhase_intervals w h ents σ hnd]
    exact hperm
  have hmema : (a, ((integratePhase w h ents σ).1 a).rect) ∈ bodies := by
    rw [hbodies]
    exact List.mem_map.mpr ⟨a, ha, rfl⟩
  have hmemb : (b, ((integratePhase w h ents σ).1 b).rect) ∈ bodies := by
    rw [hbodies]
    exact List.mem_map.mpr ⟨b, hb, rfl⟩
  have hchar := testedRun_count_char MaxPossibleObject bodies eps hndb hwb hlenb
    hpermb hsort
    (a, ((integratePhase w h ents σ).1 a).rect)
    (b, ((integratePhase w h ents σ).1 b).rect)
    hmema hmemb hab
  exact hchar

/-- Witness for the amended C1: two strictly overlapping bodies and two
gapped bodies cannot both be demonstrated by one input, so the witness uses
the canonical sorted stream of a two-body tick with a strict X-overlap. -/
theorem C1_pruning_witness :
    ([1, 2].Nodup ∧ [1, 2].length ≤ MaxPossibleObject ∧
     (∀ e ∈ [1, 2], 0 < (c7Store e).rect.w) ∧
     (integratePhase 900 800 [1, 2] c7Store).2.Perm
        (integratePhase 900 800 [1, 2] c7Store).2 ∧
     (integratePhase 900 800 [1, 2] c7Store).2.Pairwise (fun i j => i.xaxis ≤ j.xaxis) ∧
     (1 : Entity) ∈ [1, 2] ∧ (2 : Entity) ∈ [1, 2] ∧ (1 : Entity) ≠ 2) ∧
    (((((integratePhase 900 800 [1, 2] c7Store).1 1).rect.x <
        ((integratePhase 900 800 [1, 2] c7Store).1 2).rect.x +
          ((integratePhase 900 800 [1, 2] c7Store).1 2).rect.w ∧
       ((integratePhase 900 800 [1, 2] c7Store).1 2).rect.x <
        ((integratePhase 900 800 [1, 2] c7Store).1 1).rect.x +
          ((integratePhase 900 800 [1, 2] c7Store).1 1).rect.w) →
      ((sweep MaxPossibleObject (integratePhase 900 800 [1, 2] c7Store).2
          (initState (integratePhase 900 800 [1, 2] c7Store).1)).tested.count (1, 2) +
       (sweep MaxPossibleObject (integratePhase 900 800 [1, 2] c7Store).2
          (initState (integratePhase 900 800 [1, 2] c7Store).1)).tested.count (2, 1)) = 1) ∧
     ((((integratePhase 900 800 [1, 2] c7Store).1 1).rect.x +
          ((integratePhase 900 800 [1, 2] c7Store).1 1).rect.w <
        ((integratePhase 900 800 [1, 2] c7Store).1 2).rect.x ∨
       ((integratePhase 900 800 [1, 2] c7Store).1 2).rect.x +
          ((integratePhase 900 800 [1, 2] c7Store).1 2).rect.w <
        ((integratePhase 900 800 [1, 2] c7Store).1 1).rect.x) →
      ((sweep MaxPossibleObject (integratePhase 900 800 [1, 2] c7Store).2
          (initState (integratePhase 900 800 [1, 2] c7Store).1)).tested.count (1, 2) +
       (sweep MaxPossibleObject (integratePhase 900 800 [1, 2] c7Store).2
          (initState (integratePhase 900 800 [1, 2] c7Store).1)).tested.count (2, 1)) = 0)) :=
  ⟨⟨by decide, by decide, by norm_num [c7Store], List.Perm.refl _,
    by norm_num [integratePhase, integrateBody, handleScreenBoundaryCollision,
      setStore, c7Store, List.pairwise_cons],
    by decide, by decide, by decide⟩,
   C1_pruning 900 800 [1, 2] c7Store _ (by decide) (by decide)
     (by norm_num [c7Store]) (List.Perm.refl _)
     (by norm_num [integratePhase, integrateBody, handleScreenBoundaryCollision,
       setStore, c7Store, List.pairwise_cons])
     1 2 (by decide) (by decide) (by decide)⟩

/-- Concrete store for the C1 counterexample: two bodies whose X-intervals
touch exactly (`[0,5]` and `[5,9]`). -/
def c1Store : Store := fun e =>
  if e = 1 then ⟨⟨0, 0, 5, 5⟩, ⟨0, 0⟩, false⟩ else ⟨⟨5, 0, 4, 4⟩, ⟨0, 0⟩, false⟩

/-- Claim C1 counterexample: the claim as stated fails.  For the two-body tick
with X-intervals `[0,5]` and `[5,9]`, the closed intervals `[x, x+w]`
overlap (they share the point `5`), and the built stream
`[L₁(0), R₁(5), L₂(5), R₂(9)]` is already non-decreasing — a legitimate
output of `sort.Slice`, whose comparator leaves the order of the tied
endpoints `R₁(5)` and `L₂(5)` unspecified.  Sweeping this sorted stream
submits *no* pair at all to the narrow-phase Y-test, so "every pair with
overlapping X-intervals is Y-tested exactly once" is violated. -/
theorem C1_counterexample :
    (integratePhase 900 800 [1, 2] c1Store).2.Pairwise (fun i j => i.xaxis ≤ j.xaxis) ∧
    max ((integratePhase 900 800 [1, 2] c1Store).1 1).rect.x
        ((integratePhase 900 800 [1, 2] c1Store).1 2).rect.x ≤
      min (((integratePhase 900 800 [1, 2] c1Store).1 1).rect.x +
            ((integratePhase 900 800 [1, 2] c1Store).1 1).rect.w)
          (((integratePhase 900 800 [1, 2] c1Store).1 2).rect.x +
            ((integratePhase 900 800 [1, 2] c1Store).1 2).rect.w) ∧
    (sweep MaxPossibleObject (integratePhase 900 800 [1, 2] c1Store).2
      (initState (integratePhase 900 800 [1, 2] c1Store).1)).tested = [] := by
  refine ⟨?_, ?_, ?_⟩
  · norm_num [integratePhase, integrateBody, handleScreenBoundaryCollision,
      setStore, c1Store, List.pairwise_cons]
  · norm_num [integratePhase, integrateBody, handleScreenBoundaryCollision,
      setStore, c1Store, min_def, max_def]
  · rw [sweep_tested]
    norm_num [integratePhase, integrateBody, handleScreenBoundaryCollision,
      setStore, c1Store, initState, testedRun, activeStep, activeRun, swapRemove,
      MaxPossibleObject, List.indexOf_cons_self, List.getLastD_cons, List.getLastD_nil]

end Sapark
